import Mathlib

/-!
# Registro de estudiantes: store and persistence codec

Shallow embedding of `registrostudents.cpp`.

* The singly linked list `lista` is a `List Estudiante` (the `siguiente`
  pointers are the list structure).
* C strings and `std::string` values are `List Char`.
* `int` values are `Int`s; the one arithmetic operation on them, `++ultimoId`,
  wraps at 32 bits (`wrapInt`).
* The two files are the character sequences the streams write and read
  (the text-mode translation of line ends is transparent to the program).
* The list box and the message boxes are presentation; of those only the
  message shown is kept, as the operation's outcome.
-/

namespace Registro

/-! ## Texts and integers -/

/-- Text held in a `char` buffer or a `std::string`. -/
abbrev Texto := List Char

/-- Largest `int`. -/
def INT_MAX : Int := 2147483647

/-- Smallest `int`. -/
def INT_MIN : Int := -2147483648

/-- Value of a mathematical integer stored in a 32-bit two's complement `int`. -/
def wrapInt (x : Int) : Int := (x + 2147483648) % 4294967296 - 2147483648

/-- Copy of a control's text into a buffer of `nMaxCount` chars: at most
`nMaxCount - 1` characters are copied. -/
def GetWindowText (texto : Texto) (nMaxCount : Nat) : Texto :=
  texto.take (nMaxCount - 1)

/-- White space of the C locale, as skipped by `strtol`. -/
def isspace (c : Char) : Bool :=
  c == ' ' || c == '\t' || c == '\n' || c == '\x0b' || c == '\x0c' || c == '\r'

/-- Decimal digit. -/
def isdigit (c : Char) : Bool := decide (48 ≤ c.toNat) && decide (c.toNat ≤ 57)

/-- Value of a decimal digit. -/
def digitVal (c : Char) : Nat := c.toNat - 48

/-- Accumulate a run of decimal digits, most significant first. -/
def valorDigitos (ds : Texto) : Nat :=
  ds.foldl (fun acc c => acc * 10 + digitVal c) 0

/-- The magnitude part of `strtol` in base 10: the longest run of leading
digits, `none` when there is no digit. -/
def leerMagnitud (s : Texto) : Option Nat :=
  match s.takeWhile isdigit with
  | [] => none
  | d :: ds => some (valorDigitos (d :: ds))

/-- The conversion done by `strtol(s, &end, 10)` before any range check:
leading white space is skipped, one optional sign is read, then the longest
run of digits; whatever follows is ignored. `none` when no digit is found. -/
def strtol (s : Texto) : Option Int :=
  match s.dropWhile isspace with
  | [] => none
  | c :: r =>
    if c = '-' then (leerMagnitud r).map (fun (n : Nat) => - (n : Int))
    else if c = '+' then (leerMagnitud r).map (fun (n : Nat) => (n : Int))
    else (leerMagnitud (c :: r)).map (fun (n : Nat) => (n : Int))

/-- C `atoi`: the converted value, 0 when nothing converts. It is only applied
to buffers of at most 9 characters, whose value always fits an `int`. -/
def atoi (s : Texto) : Int := (strtol s).getD 0

/-- C++ `std::stoi`: `none` stands for a thrown exception
(`invalid_argument` when nothing converts, `out_of_range` when the value does
not fit an `int`). -/
def stoi (s : Texto) : Option Int :=
  match strtol s with
  | none => none
  | some v => if INT_MIN ≤ v ∧ v ≤ INT_MAX then some v else none

/-- Decimal rendering of an `int`, as done by `operator<<` and
`std::to_string`. -/
def to_string (i : Int) : Texto :=
  if i < 0 then '-' :: Nat.toDigits 10 i.natAbs else Nat.toDigits 10 i.natAbs

/-! ## Data model -/

/-- One student record (`struct Estudiante` without the link). -/
structure Estudiante where
  id : Int
  nombre : Texto
  correo : Texto
  carrera : Texto
  anio : Int
deriving DecidableEq, Repr

/-- The globals `lista` and `ultimoId`. -/
structure Estado where
  lista : List Estudiante
  ultimoId : Int
deriving DecidableEq, Repr

/-- The message box an operation shows. -/
inductive Mensaje where
  /-- Message "Todos los campos son obligatorios" -/
  | camposObligatorios
  /-- Message "El año debe ser un número positivo" -/
  | anioPositivo
  /-- Message "Ingrese un ID válido" -/
  | idValido
  /-- Message "El ID debe ser un número positivo" -/
  | idPositivo
  /-- Message "Estudiante modificado correctamente" -/
  | modificado
  /-- Message "Estudiante eliminado correctamente" -/
  | eliminado
  /-- Message "ID no encontrado" -/
  | idNoEncontrado
  /-- Message "Error al crear el archivo de registros" -/
  | errorCrearArchivo
  /-- Message "Datos guardados correctamente" -/
  | guardado
  /-- Message "No se encontró archivo de registros. Se creará uno nuevo al guardar." -/
  | sinArchivo
  /-- Message "Datos cargados correctamente" -/
  | cargado
deriving DecidableEq, Repr

/-- Initial values of the globals. -/
def estadoInicial : Estado := { lista := [], ultimoId := 0 }

/-! ## Store operations -/

/-- Function `GenerarId`: `return ++ultimoId;`. Signed overflow is undefined
in C++; the model takes the two's complement result the target machine
produces. -/
def GenerarId (s : Estado) : Int × Estado :=
  let nuevo := wrapInt (s.ultimoId + 1)
  (nuevo, { s with ultimoId := nuevo })

/-- Walk to the last node and link `nuevo` after it. -/
def agregarAlFinal (nuevo : Estudiante) : List Estudiante → List Estudiante
  | [] => [nuevo]
  | e :: resto => e :: agregarAlFinal nuevo resto

/-- Function `AgregarEstudiante`; the arguments are the texts of the four edit
controls. The result carries the message box shown, `none` on success. -/
def AgregarEstudiante (s : Estado) (hNombre hCorreo hCarrera hAnio : Texto) :
    Estado × Option Mensaje :=
  let nombre := GetWindowText hNombre 100
  let correo := GetWindowText hCorreo 100
  let carrera := GetWindowText hCarrera 100
  let anioStr := GetWindowText hAnio 10
  if nombre.length = 0 ∨ correo.length = 0 ∨ carrera.length = 0 ∨ anioStr.length = 0 then
    (s, some Mensaje.camposObligatorios)
  else
    let anio := atoi anioStr
    if anio ≤ 0 then
      (s, some Mensaje.anioPositivo)
    else
      let g := GenerarId s
      let nuevo : Estudiante :=
        { id := g.1, nombre := nombre, correo := correo, carrera := carrera, anio := anio }
      ({ g.2 with lista := agregarAlFinal nuevo g.2.lista }, none)

/-- The search loop of `ModificarEstudiante`: overwrite the first node whose
id matches and stop; the flag is `encontrado`. -/
def modificarNodo (id : Int) (nombre correo carrera : Texto) (anio : Int) :
    List Estudiante → List Estudiante × Bool
  | [] => ([], false)
  | e :: resto =>
    if e.id = id then
      ({ e with nombre := nombre, correo := correo, carrera := carrera, anio := anio } :: resto,
        true)
    else
      let r := modificarNodo id nombre correo carrera anio resto
      (e :: r.1, r.2)

/-- Function `ModificarEstudiante`; the arguments are the texts of the id control and
of the four edit controls. -/
def ModificarEstudiante (s : Estado) (hIdModificar hNombre hCorreo hCarrera hAnio : Texto) :
    Estado × Mensaje :=
  let idStr := GetWindowText hIdModificar 10
  let nombre := GetWindowText hNombre 100
  let correo := GetWindowText hCorreo 100
  let carrera := GetWindowText hCarrera 100
  let anioStr := GetWindowText hAnio 10
  if idStr.length = 0 then
    (s, Mensaje.idValido)
  else
    let id := atoi idStr
    if id ≤ 0 then
      (s, Mensaje.idPositivo)
    else
      let anio := atoi anioStr
      if anio ≤ 0 then
        (s, Mensaje.anioPositivo)
      else
        let r := modificarNodo id nombre correo carrera anio s.lista
        if r.2 then ({ s with lista := r.1 }, Mensaje.modificado)
        else ({ s with lista := r.1 }, Mensaje.idNoEncontrado)

/-- The search loop of `EliminarEstudiante`: unlink the first node whose id
matches and stop; the flag is `encontrado`. -/
def eliminarNodo (id : Int) : List Estudiante → List Estudiante × Bool
  | [] => ([], false)
  | e :: resto =>
    if e.id = id then
      (resto, true)
    else
      let r := eliminarNodo id resto
      (e :: r.1, r.2)

/-- Function `EliminarEstudiante`; the argument is the text of the search control. -/
def EliminarEstudiante (s : Estado) (hBusqueda : Texto) : Estado × Mensaje :=
  let idStr := GetWindowText hBusqueda 10
  if idStr.length = 0 then
    (s, Mensaje.idValido)
  else
    let id := atoi idStr
    if id ≤ 0 then
      (s, Mensaje.idPositivo)
    else
      let r := eliminarNodo id s.lista
      if r.2 then ({ s with lista := r.1 }, Mensaje.eliminado)
      else ({ s with lista := r.1 }, Mensaje.idNoEncontrado)

/-! ## Persistence -/

/-- The two files; `none` is a file that cannot be opened for reading
(it does not exist). -/
structure Archivos where
  registros_csv : Option Texto
  ultimo_id_txt : Option Texto
deriving DecidableEq, Repr

/-- No file on disk. -/
def sinArchivos : Archivos := { registros_csv := none, ultimo_id_txt := none }

/-- One record as written by `GuardarArchivo`:
`id;nombre;correo;carrera;anio\n`. -/
def escribirRegistro (e : Estudiante) : Texto :=
  to_string e.id ++ ';' :: (e.nombre ++ ';' :: (e.correo ++ ';' :: (e.carrera ++
    ';' :: (to_string e.anio ++ ['\n']))))

/-- The writing loop of `GuardarArchivo`. -/
def escribirLista : List Estudiante → Texto
  | [] => []
  | e :: resto => escribirRegistro e ++ escribirLista resto

/-- Function `GuardarArchivo`. The two flags say whether `registros.csv` and
`ultimo_id.txt` could be opened for writing. -/
def GuardarArchivo (abreRegistros abreId : Bool) (s : Estado) (fs : Archivos) :
    Archivos × Mensaje :=
  if !abreRegistros then
    (fs, Mensaje.errorCrearArchivo)
  else
    let fs1 : Archivos := { fs with registros_csv := some (escribirLista s.lista) }
    let fs2 : Archivos :=
      if abreId then { fs1 with ultimo_id_txt := some (to_string s.ultimoId) } else fs1
    (fs2, Mensaje.guardado)

/-- Outcome of one `std::getline`: the string read, whether the call
succeeded, and the stream afterwards. A stream is `some rest` while it is
good with `rest` unread, `none` once eofbit or failbit is set. -/
structure Lectura where
  texto : Texto
  ok : Bool
  flujo : Option Texto
deriving DecidableEq, Repr

/-- Extract characters up to the delimiter: the characters before it, and
what follows it (`none` when the input ends before a delimiter is met). -/
def hastaDelim (delim : Char) : Texto → Texto × Option Texto
  | [] => ([], none)
  | c :: cs =>
    if c = delim then ([], some cs)
    else
      let r := hastaDelim delim cs
      (c :: r.1, r.2)

/-- Library call `std::getline(flujo, str, delim)`. On a stream that is not good the call
fails. Otherwise characters are extracted up to the delimiter, which is
consumed and not stored; reaching the end of input sets eofbit, and the call
fails when nothing at all was extracted. -/
def getline (delim : Char) (flujo : Option Texto) : Lectura :=
  match flujo with
  | none => { texto := [], ok := false, flujo := none }
  | some rest =>
    match hastaDelim delim rest with
    | (t, some despues) => { texto := t, ok := true, flujo := some despues }
    | (t, none) => { texto := t, ok := !t.isEmpty, flujo := none }

/-- The five `getline(ss, campo, ';')` calls on one line, short-circuited as
by `||`: `none` when one of them fails. -/
def leerCampos (linea : Texto) : Option (Texto × Texto × Texto × Texto × Texto) :=
  let r1 := getline ';' (some linea)
  if !r1.ok then none else
  let r2 := getline ';' r1.flujo
  if !r2.ok then none else
  let r3 := getline ';' r2.flujo
  if !r3.ok then none else
  let r4 := getline ';' r3.flujo
  if !r4.ok then none else
  let r5 := getline ';' r4.flujo
  if !r5.ok then none else
  some (r1.texto, r2.texto, r3.texto, r4.texto, r5.texto)

/-- Body of the reading loop of `CargarArchivo` for one line: every
`continue` leaves the list as it is. -/
def procesarLinea (lista : List Estudiante) (linea : Texto) : List Estudiante :=
  if linea.isEmpty then lista
  else
    match leerCampos linea with
    | none => lista
    | some (idStr, nombre, correo, carrera, anioStr) =>
      match stoi idStr with
      | none => lista
      | some id =>
        match stoi anioStr with
        | none => lista
        | some anio =>
          agregarAlFinal
            { id := id, nombre := nombre, correo := correo, carrera := carrera, anio := anio }
            lista

/-- The loop `while (getline(file, linea))` of `CargarArchivo`, with a bound
on the number of `getline` calls. -/
def cargarLineas : Nat → Option Texto → List Estudiante → List Estudiante
  | 0, _, lista => lista
  | fuel + 1, file, lista =>
    let r := getline '\n' file
    if r.ok then cargarLineas fuel r.flujo (procesarLinea lista r.texto) else lista

/-- The value `CargarArchivo` leaves in `ultimoId`. -/
def cargarUltimoId (previo : Int) (ultimo_id_txt : Option Texto) : Int :=
  match ultimo_id_txt with
  | none => previo
  | some contenido =>
    let idStr := (getline '\n' (some contenido)).texto
    if !idStr.isEmpty then
      match stoi idStr with
      | some v => v
      | none => 0
    else previo

/-- Function `CargarArchivo`. The list is emptied first; the loop is given more
`getline` calls than the file has characters. -/
def CargarArchivo (s : Estado) (fs : Archivos) : Estado × Mensaje :=
  let ultimoId := cargarUltimoId s.ultimoId fs.ultimo_id_txt
  match fs.registros_csv with
  | none => ({ lista := [], ultimoId := ultimoId }, Mensaje.sinArchivo)
  | some contenido =>
    ({ lista := cargarLineas (contenido.length + 2) (some contenido) [], ultimoId := ultimoId },
      Mensaje.cargado)

/-! ## Specification-side definitions -/

/-- Follows the spec's words "the year is a positive integer" for a text:
it is non-empty, made of decimal digits only, and its value is positive. -/
def esEnteroPositivo (t : Texto) : Bool :=
  !t.isEmpty && t.all isdigit && decide (0 < valorDigitos t)

/-- The predicate of the id invariant: the ids of the records are pairwise
distinct and every id lies between 1 and `ultimoId`. -/
def IdsValidos (s : Estado) : Prop :=
  (s.lista.map (fun e => e.id)).Nodup ∧ ∀ e ∈ s.lista, 1 ≤ e.id ∧ e.id ≤ s.ultimoId

instance (s : Estado) : Decidable (IdsValidos s) := by
  unfold IdsValidos
  infer_instance

/-- Follows the spec's words "delimited fields" and "line by line": the
pieces of a text between the occurrences of the delimiter. -/
def partir (d : Char) : Texto → List Texto
  | [] => [[]]
  | c :: cs =>
    if c = d then [] :: partir d cs
    else
      match partir d cs with
      | [] => [[c]]
      | p :: ps => (c :: p) :: ps

/-- Follows the spec's words "integer" for a field read from a file: an
optional minus sign followed by one or more decimal digits, nothing else. -/
def esEntero (t : Texto) : Bool :=
  match t with
  | '-' :: r => !r.isEmpty && r.all isdigit
  | r => !r.isEmpty && r.all isdigit

/-- The record a line of the record file stands for, stated over its
semicolon-delimited fields: the line is non-empty, has at least 5 fields, and
`stoi` converts the first and the fifth. -/
def registroDeLinea (linea : Texto) : Option Estudiante :=
  if linea.isEmpty then none
  else
    match partir ';' linea with
    | idStr :: nombre :: correo :: carrera :: anioStr :: _ =>
      match stoi idStr, stoi anioStr with
      | some id, some anio =>
        some { id := id, nombre := nombre, correo := correo, carrera := carrera, anio := anio }
      | _, _ => none
    | _ => none

/-- Follows the spec's words "a single decimal integer, optionally followed by
a line terminator": the checkpoint's text up to its first line feed. -/
def primeraLinea (contenido : Texto) : Texto :=
  contenido.takeWhile (fun c => c != '\n')

/-- Every `int` of the state is an `int`: between `INT_MIN` and `INT_MAX`. -/
def EnRango (s : Estado) : Prop :=
  (INT_MIN ≤ s.ultimoId ∧ s.ultimoId ≤ INT_MAX) ∧
  ∀ e ∈ s.lista, (INT_MIN ≤ e.id ∧ e.id ≤ INT_MAX) ∧ (INT_MIN ≤ e.anio ∧ e.anio ≤ INT_MAX)

instance (s : Estado) : Decidable (EnRango s) := by
  unfold EnRango
  infer_instance

/-- No name, email or program contains a semicolon or a line feed. -/
def SinSeparadores (s : Estado) : Prop :=
  ∀ e ∈ s.lista, ∀ c ∈ e.nombre ++ e.correo ++ e.carrera, c ≠ ';' ∧ c ≠ '\n'

instance (s : Estado) : Decidable (SinSeparadores s) := by
  unfold SinSeparadores
  infer_instance

/-! ## Examples and runs of operations -/

/-- A store with two records. -/
def ejEstado : Estado :=
  { lista := [{ id := 1, nombre := "Ana".toList, correo := "a@x.com".toList,
                carrera := "CS".toList, anio := 2023 },
              { id := 2, nombre := "Bo".toList, correo := "b@x.com".toList,
                carrera := "Math".toList, anio := 2022 }],
    ultimoId := 2 }

/-- The line written for a record, without its line feed. -/
def lineaDe (e : Estudiante) : Texto :=
  to_string e.id ++ ';' :: (e.nombre ++ ';' :: (e.correo ++ ';' :: (e.carrera ++
    ';' :: to_string e.anio)))

/-- A store whose record has empty texts, id zero and a negative year. -/
def ejExtremo : Estado :=
  { lista := [{ id := 0, nombre := [], correo := [], carrera := [], anio := -5 },
              { id := -3, nombre := "Ana".toList, correo := [], carrera := "CS".toList,
                anio := 0 }],
    ultimoId := -7 }

/-- A store whose record has a semicolon in its name. -/
def ejPuntoYComa : Estado :=
  { lista := [{ id := 1, nombre := "a;b".toList, correo := "c".toList, carrera := "d".toList,
                anio := 2020 }],
    ultimoId := 1 }

/-- A button press handled by `WindowProcedure`, with the texts the controls
hold at that moment (buttons 1, 4, 5, 6, 7; for button 6 the flags say
whether the two files could be opened for writing). -/
inductive Operacion where
  | agregar (hNombre hCorreo hCarrera hAnio : Texto)
  | modificar (hIdModificar hNombre hCorreo hCarrera hAnio : Texto)
  | eliminar (hBusqueda : Texto)
  | guardar (abreRegistros abreId : Bool)
  | cargar
deriving DecidableEq, Repr

/-- The globals together with the two files. -/
structure Sistema where
  estado : Estado
  archivos : Archivos
deriving DecidableEq, Repr

/-- The `WM_COMMAND` dispatch of `WindowProcedure`. -/
def WindowProcedure (sys : Sistema) : Operacion → Sistema
  | Operacion.agregar n c k a =>
    { sys with estado := (AgregarEstudiante sys.estado n c k a).1 }
  | Operacion.modificar i n c k a =>
    { sys with estado := (ModificarEstudiante sys.estado i n c k a).1 }
  | Operacion.eliminar b =>
    { sys with estado := (EliminarEstudiante sys.estado b).1 }
  | Operacion.guardar abreRegistros abreId =>
    { sys with archivos := (GuardarArchivo abreRegistros abreId sys.estado sys.archivos).1 }
  | Operacion.cargar =>
    { sys with estado := (CargarArchivo sys.estado sys.archivos).1 }

/-- A sequence of button presses. -/
def ejecutar (sys : Sistema) (ops : List Operacion) : Sistema :=
  ops.foldl WindowProcedure sys

/-- The id of the record a successful add appends; `none` for a rejected add
and for the other operations. -/
def idAsignado (sys : Sistema) (op : Operacion) : Option Int :=
  match op with
  | Operacion.agregar n c k a =>
    match AgregarEstudiante sys.estado n c k a with
    | (s, none) => s.lista.getLast?.map (fun e => e.id)
    | (_, some _) => none
  | _ => none

/-- The store at program start with no file on disk. -/
def sistemaInicial : Sistema := { estado := estadoInicial, archivos := sinArchivos }

/-- A record file with the same id on two lines. -/
def archivosRepetidos : Archivos :=
  { registros_csv := some "1;a;b;c;1\n1;d;e;f;2\n".toList, ultimo_id_txt := none }

/-- A valid add. -/
def opAgregar : Operacion :=
  Operacion.agregar "Ana".toList "a@x.com".toList "CS".toList "2023".toList

/-- Bound kept along a run that starts without files: `ultimoId` lies
between 0 and `k`, and the checkpoint file, when present, holds the decimal
rendering of such a value. -/
def Cota (k : Int) (sys : Sistema) : Prop :=
  (0 ≤ sys.estado.ultimoId ∧ sys.estado.ultimoId ≤ k) ∧
  ∀ t, sys.archivos.ultimo_id_txt = some t → ∃ v : Int, 0 ≤ v ∧ v ≤ k ∧ t = to_string v

/-- No load of the run rolls the counter back: every load finds the
checkpoint file absent or holding the current `ultimoId`, as it does right
after a save that wrote both files. -/
def cargasAlDia (sys : Sistema) : List Operacion → Bool
  | [] => true
  | op :: ops =>
    (match op with
      | Operacion.cargar =>
        decide (sys.archivos.ultimo_id_txt = none ∨
          sys.archivos.ultimo_id_txt = some (to_string sys.estado.ultimoId))
      | _ => true) && cargasAlDia (WindowProcedure sys op) ops

/-- The text holds no line feed. -/
def sinSalto (t : Texto) : Bool := t.all (fun c => c != '\n')

/-- Conditions on one operation of a run whose files are written by save
only: a name, email or program text entered holds no line feed, and a save
that writes the record file writes the checkpoint file too. -/
def operacionLimpia : Operacion → Bool
  | Operacion.agregar n c k _ => sinSalto n && sinSalto c && sinSalto k
  | Operacion.modificar _ n c k _ => sinSalto n && sinSalto c && sinSalto k
  | Operacion.guardar abreRegistros abreId => !abreRegistros || abreId
  | _ => true

/-- No name, email or program of the record contains a line feed. -/
def RegistroSinSalto (e : Estudiante) : Prop :=
  ∀ c ∈ e.nombre ++ e.correo ++ e.carrera, c ≠ '\n'

/-- The state has pairwise distinct ids between 1 and `ultimoId`, an
`ultimoId` between 0 and `k`, and no line feed in its texts. -/
def Sano (k : Int) (s : Estado) : Prop :=
  IdsValidos s ∧ (0 ≤ s.ultimoId ∧ s.ultimoId ≤ k) ∧ ∀ e ∈ s.lista, RegistroSinSalto e

/-- Invariant of a run whose files are written by save only: the state is
sound, and the files are absent or are the two files a save writes for a
sound state. -/
def Consistente (k : Int) (sys : Sistema) : Prop :=
  Sano k sys.estado ∧
  (sys.archivos = sinArchivos ∨
    ∃ S : Estado, Sano k S ∧
      sys.archivos = { registros_csv := some (escribirLista S.lista),
                       ultimo_id_txt := some (to_string S.ultimoId) })

/-- A name that holds a line feed followed by a well-formed line. -/
def opAgregarConSalto : Operacion :=
  Operacion.agregar "x;y;z;5\n1;n".toList "c".toList "k".toList "2020".toList

/-! ## Lemmas on the list loops -/

theorem agregarAlFinal_eq (nuevo : Estudiante) (l : List Estudiante) :
    agregarAlFinal nuevo l = l ++ [nuevo] := by
  induction l with
  | nil => rfl
  | cons e resto ih => simp [agregarAlFinal, ih]

theorem wrapInt_of_range (x : Int) (h1 : INT_MIN ≤ x) (h2 : x ≤ INT_MAX) : wrapInt x = x := by
  unfold wrapInt
  unfold INT_MIN at h1
  unfold INT_MAX at h2
  omega

theorem modificarNodo_ausente (id : Int) (nombre correo carrera : Texto) (anio : Int)
    (l : List Estudiante) (h : ∀ e ∈ l, e.id ≠ id) :
    modificarNodo id nombre correo carrera anio l = (l, false) := by
  induction l with
  | nil => rfl
  | cons e resto ih =>
    have he : e.id ≠ id := h e (List.mem_cons_self _ _)
    have hr : ∀ x ∈ resto, x.id ≠ id := fun x hx => h x (List.mem_cons_of_mem _ hx)
    simp [modificarNodo, he, ih hr]

theorem modificarNodo_presente (id : Int) (nombre correo carrera : Texto) (anio : Int)
    (l : List Estudiante) (h : ∃ e ∈ l, e.id = id) :
    ∃ pre e post, l = pre ++ e :: post ∧ (∀ x ∈ pre, x.id ≠ id) ∧ e.id = id ∧
      modificarNodo id nombre correo carrera anio l =
        (pre ++ { id := e.id, nombre := nombre, correo := correo, carrera := carrera,
                  anio := anio } :: post, true) := by
  induction l with
  | nil => simp at h
  | cons a resto ih =>
    by_cases ha : a.id = id
    · exact ⟨[], a, resto, rfl, by simp, ha, by simp [modificarNodo, ha]⟩
    · have hr : ∃ e ∈ resto, e.id = id := by
        obtain ⟨e, he, hid⟩ := h
        rcases List.mem_cons.mp he with rfl | he
        · exact absurd hid ha
        · exact ⟨e, he, hid⟩
      obtain ⟨pre, e, post, hl, hpre, hid, hm⟩ := ih hr
      refine ⟨a :: pre, e, post, by simp [hl], ?_, hid, by simp [modificarNodo, ha, hm]⟩
      intro x hx
      rcases List.mem_cons.mp hx with rfl | hx
      · exact ha
      · exact hpre x hx

theorem eliminarNodo_ausente (id : Int) (l : List Estudiante) (h : ∀ e ∈ l, e.id ≠ id) :
    eliminarNodo id l = (l, false) := by
  induction l with
  | nil => rfl
  | cons e resto ih =>
    have he : e.id ≠ id := h e (List.mem_cons_self _ _)
    have hr : ∀ x ∈ resto, x.id ≠ id := fun x hx => h x (List.mem_cons_of_mem _ hx)
    simp [eliminarNodo, he, ih hr]

theorem eliminarNodo_presente (id : Int) (l : List Estudiante) (h : ∃ e ∈ l, e.id = id) :
    ∃ pre e post, l = pre ++ e :: post ∧ (∀ x ∈ pre, x.id ≠ id) ∧ e.id = id ∧
      eliminarNodo id l = (pre ++ post, true) := by
  induction l with
  | nil => simp at h
  | cons a resto ih =>
    by_cases ha : a.id = id
    · exact ⟨[], a, resto, rfl, by simp, ha, by simp [eliminarNodo, ha]⟩
    · have hr : ∃ e ∈ resto, e.id = id := by
        obtain ⟨e, he, hid⟩ := h
        rcases List.mem_cons.mp he with rfl | he
        · exact absurd hid ha
        · exact ⟨e, he, hid⟩
      obtain ⟨pre, e, post, hl, hpre, hid, hm⟩ := ih hr
      refine ⟨a :: pre, e, post, by simp [hl], ?_, hid, by simp [eliminarNodo, ha, hm]⟩
      intro x hx
      rcases List.mem_cons.mp hx with rfl | hx
      · exact ha
      · exact hpre x hx

/-! ## Update and Delete -/

/-- C5. For every store state and every positive id and positive year read
from the controls, `ModificarEstudiante` signals not-found and leaves the
state unchanged when no record has that id; otherwise it signals success, the
first record with that id keeps its id and position and gets the name, email,
program and year read from the controls, every other record, the order, the
length and `ultimoId` stay as they were. -/
theorem ModificarEstudiante_spec (s : Estado)
    (hIdModificar hNombre hCorreo hCarrera hAnio : Texto) (id anio : Int)
    (hid : atoi (GetWindowText hIdModificar 10) = id) (hidpos : 0 < id)
    (hanio : atoi (GetWindowText hAnio 10) = anio) (haniopos : 0 < anio) :
    ((∀ e ∈ s.lista, e.id ≠ id) →
      ModificarEstudiante s hIdModificar hNombre hCorreo hCarrera hAnio =
        (s, Mensaje.idNoEncontrado)) ∧
    ((∃ e ∈ s.lista, e.id = id) →
      ∃ pre e post, s.lista = pre ++ e :: post ∧ (∀ x ∈ pre, x.id ≠ id) ∧ e.id = id ∧
        ModificarEstudiante s hIdModificar hNombre hCorreo hCarrera hAnio =
          ({ lista := pre ++ { id := id, nombre := GetWindowText hNombre 100,
                               correo := GetWindowText hCorreo 100,
                               carrera := GetWindowText hCarrera 100,
                               anio := anio } :: post,
             ultimoId := s.ultimoId }, Mensaje.modificado)) := by
  have hne : (GetWindowText hIdModificar 10).length ≠ 0 := by
    intro h0
    have : GetWindowText hIdModificar 10 = [] := List.length_eq_zero.mp h0
    rw [this] at hid
    have : atoi [] = 0 := by decide
    omega
  have h1 : ¬ id ≤ 0 := by omega
  have h2 : ¬ anio ≤ 0 := by omega
  constructor
  · intro habs
    have hm := modificarNodo_ausente id (GetWindowText hNombre 100) (GetWindowText hCorreo 100)
      (GetWindowText hCarrera 100) anio s.lista habs
    simp [ModificarEstudiante, hne, hid, hanio, h1, h2, hm]
  · intro hex
    obtain ⟨pre, e, post, hl, hpre, he, hm⟩ :=
      modificarNodo_presente id (GetWindowText hNombre 100) (GetWindowText hCorreo 100)
        (GetWindowText hCarrera 100) anio s.lista hex
    refine ⟨pre, e, post, hl, hpre, he, ?_⟩
    simp [ModificarEstudiante, hne, hid, hanio, h1, h2, hm, he]

/-- C6. For every store state and every positive id read from the control,
`EliminarEstudiante` signals not-found and leaves the state unchanged when no
record has that id; otherwise it signals success and the new list is the old
one without the first record having that id, the others unchanged and in
their order, `ultimoId` unchanged. -/
theorem EliminarEstudiante_spec (s : Estado) (hBusqueda : Texto) (id : Int)
    (hid : atoi (GetWindowText hBusqueda 10) = id) (hidpos : 0 < id) :
    ((∀ e ∈ s.lista, e.id ≠ id) →
      EliminarEstudiante s hBusqueda = (s, Mensaje.idNoEncontrado)) ∧
    ((∃ e ∈ s.lista, e.id = id) →
      ∃ pre e post, s.lista = pre ++ e :: post ∧ (∀ x ∈ pre, x.id ≠ id) ∧ e.id = id ∧
        EliminarEstudiante s hBusqueda =
          ({ lista := pre ++ post, ultimoId := s.ultimoId }, Mensaje.eliminado)) := by
  have hne : (GetWindowText hBusqueda 10).length ≠ 0 := by
    intro h0
    have : GetWindowText hBusqueda 10 = [] := List.length_eq_zero.mp h0
    rw [this] at hid
    have : atoi [] = 0 := by decide
    omega
  have h1 : ¬ id ≤ 0 := by omega
  constructor
  · intro habs
    have hm := eliminarNodo_ausente id s.lista habs
    simp [EliminarEstudiante, hne, hid, h1, hm]
  · intro hex
    obtain ⟨pre, e, post, hl, hpre, he, hm⟩ := eliminarNodo_presente id s.lista hex
    refine ⟨pre, e, post, hl, hpre, he, ?_⟩
    simp [EliminarEstudiante, hne, hid, h1, hm]

/-- Concrete instance of `ModificarEstudiante_spec`: id text "2", year text
"2024" on the two-record store. -/
theorem ModificarEstudiante_spec_witness :
    ((∀ e ∈ ejEstado.lista, e.id ≠ 2) →
      ModificarEstudiante ejEstado "2".toList "Bea".toList "bea@x.com".toList "Bio".toList
        "2024".toList = (ejEstado, Mensaje.idNoEncontrado)) ∧
    ((∃ e ∈ ejEstado.lista, e.id = 2) →
      ∃ pre e post, ejEstado.lista = pre ++ e :: post ∧ (∀ x ∈ pre, x.id ≠ 2) ∧ e.id = 2 ∧
        ModificarEstudiante ejEstado "2".toList "Bea".toList "bea@x.com".toList "Bio".toList
          "2024".toList =
          ({ lista := pre ++ { id := 2, nombre := GetWindowText "Bea".toList 100,
                               correo := GetWindowText "bea@x.com".toList 100,
                               carrera := GetWindowText "Bio".toList 100,
                               anio := 2024 } :: post,
             ultimoId := ejEstado.ultimoId }, Mensaje.modificado)) :=
  ModificarEstudiante_spec ejEstado "2".toList "Bea".toList "bea@x.com".toList "Bio".toList
    "2024".toList 2 2024 (by decide) (by decide) (by decide) (by decide)

/-- Concrete instance of `EliminarEstudiante_spec`: id text "1" on the
two-record store. -/
theorem EliminarEstudiante_spec_witness :
    ((∀ e ∈ ejEstado.lista, e.id ≠ 1) →
      EliminarEstudiante ejEstado "1".toList = (ejEstado, Mensaje.idNoEncontrado)) ∧
    ((∃ e ∈ ejEstado.lista, e.id = 1) →
      ∃ pre e post, ejEstado.lista = pre ++ e :: post ∧ (∀ x ∈ pre, x.id ≠ 1) ∧ e.id = 1 ∧
        EliminarEstudiante ejEstado "1".toList =
          ({ lista := pre ++ post, ultimoId := ejEstado.ultimoId }, Mensaje.eliminado)) :=
  EliminarEstudiante_spec ejEstado "1".toList 1 (by decide) (by decide)

/-! ## Add -/

/-- C4 (as stated, refuted). The year text "12abc" is not a positive decimal
integer, yet `AgregarEstudiante` reports no error and appends a record with
year 12 and id 1. -/
theorem AgregarEstudiante_acepta_prefijo :
    esEnteroPositivo "12abc".toList = false ∧
    AgregarEstudiante estadoInicial "Ana".toList "a@x.com".toList "CS".toList "12abc".toList =
      ({ lista := [{ id := 1, nombre := "Ana".toList, correo := "a@x.com".toList,
                     carrera := "CS".toList, anio := 12 }],
         ultimoId := 1 }, none) := by
  constructor <;> decide

/-- C4 (amended). With the four texts read through their buffers (99
characters for name, email, program; 9 for the year) and the year converted
by `atoi`: when one of the four is empty or the converted year is not
positive, a validation message is shown and the state is unchanged; otherwise,
for `ultimoId` below `INT_MAX`, `ultimoId` grows by exactly 1 and the new list
is the old one followed by one record with the new `ultimoId` as id and the
texts and converted year as fields. -/
theorem AgregarEstudiante_spec (s : Estado) (hNombre hCorreo hCarrera hAnio : Texto)
    (hmin : INT_MIN ≤ s.ultimoId) (hmax : s.ultimoId < INT_MAX) :
    ((GetWindowText hNombre 100 = [] ∨ GetWindowText hCorreo 100 = [] ∨
        GetWindowText hCarrera 100 = [] ∨ GetWindowText hAnio 10 = [] ∨
        atoi (GetWindowText hAnio 10) ≤ 0) →
      (AgregarEstudiante s hNombre hCorreo hCarrera hAnio =
          (s, some Mensaje.camposObligatorios) ∨
       AgregarEstudiante s hNombre hCorreo hCarrera hAnio =
          (s, some Mensaje.anioPositivo))) ∧
    (¬ (GetWindowText hNombre 100 = [] ∨ GetWindowText hCorreo 100 = [] ∨
        GetWindowText hCarrera 100 = [] ∨ GetWindowText hAnio 10 = [] ∨
        atoi (GetWindowText hAnio 10) ≤ 0) →
      AgregarEstudiante s hNombre hCorreo hCarrera hAnio =
        ({ lista := s.lista ++ [{ id := s.ultimoId + 1,
                                  nombre := GetWindowText hNombre 100,
                                  correo := GetWindowText hCorreo 100,
                                  carrera := GetWindowText hCarrera 100,
                                  anio := atoi (GetWindowText hAnio 10) }],
           ultimoId := s.ultimoId + 1 }, none)) := by
  have hw : wrapInt (s.ultimoId + 1) = s.ultimoId + 1 := by
    apply wrapInt_of_range
    · unfold INT_MIN at *; omega
    · unfold INT_MAX at *; omega
  constructor
  · intro h
    by_cases hv : (GetWindowText hNombre 100).length = 0 ∨ (GetWindowText hCorreo 100).length = 0 ∨
        (GetWindowText hCarrera 100).length = 0 ∨ (GetWindowText hAnio 10).length = 0
    · left
      simp only [AgregarEstudiante, if_pos hv]
    · right
      have ha : atoi (GetWindowText hAnio 10) ≤ 0 := by
        simp only [List.length_eq_zero] at hv
        tauto
      simp only [AgregarEstudiante, if_neg hv, if_pos ha]
  · intro h
    have hv : ¬ ((GetWindowText hNombre 100).length = 0 ∨ (GetWindowText hCorreo 100).length = 0 ∨
        (GetWindowText hCarrera 100).length = 0 ∨ (GetWindowText hAnio 10).length = 0) := by
      simp only [List.length_eq_zero]
      tauto
    have ha : ¬ atoi (GetWindowText hAnio 10) ≤ 0 := by tauto
    simp only [AgregarEstudiante, if_neg hv, if_neg ha, GenerarId, hw, agregarAlFinal_eq]

/-- Concrete instance of `AgregarEstudiante_spec`: a valid add on the
two-record store. -/
theorem AgregarEstudiante_spec_witness :
    ((GetWindowText "Cy".toList 100 = [] ∨ GetWindowText "c@x.com".toList 100 = [] ∨
        GetWindowText "Art".toList 100 = [] ∨ GetWindowText "2021".toList 10 = [] ∨
        atoi (GetWindowText "2021".toList 10) ≤ 0) →
      (AgregarEstudiante ejEstado "Cy".toList "c@x.com".toList "Art".toList "2021".toList =
          (ejEstado, some Mensaje.camposObligatorios) ∨
       AgregarEstudiante ejEstado "Cy".toList "c@x.com".toList "Art".toList "2021".toList =
          (ejEstado, some Mensaje.anioPositivo))) ∧
    (¬ (GetWindowText "Cy".toList 100 = [] ∨ GetWindowText "c@x.com".toList 100 = [] ∨
        GetWindowText "Art".toList 100 = [] ∨ GetWindowText "2021".toList 10 = [] ∨
        atoi (GetWindowText "2021".toList 10) ≤ 0) →
      AgregarEstudiante ejEstado "Cy".toList "c@x.com".toList "Art".toList "2021".toList =
        ({ lista := ejEstado.lista ++
             [{ id := ejEstado.ultimoId + 1,
                nombre := GetWindowText "Cy".toList 100,
                correo := GetWindowText "c@x.com".toList 100,
                carrera := GetWindowText "Art".toList 100,
                anio := atoi (GetWindowText "2021".toList 10) }],
           ultimoId := ejEstado.ultimoId + 1 }, none)) :=
  AgregarEstudiante_spec ejEstado "Cy".toList "c@x.com".toList "Art".toList "2021".toList
    (by decide) (by decide)

/-! ## Decimal rendering and parsing -/

theorem digitChar_digito (k : Nat) (hk : k < 10) :
    isdigit (Nat.digitChar k) = true ∧ digitVal (Nat.digitChar k) = k := by
  interval_cases k <;> decide

theorem valorDigitos_snoc (ds : Texto) (d : Char) :
    valorDigitos (ds ++ [d]) = valorDigitos ds * 10 + digitVal d := by
  simp [valorDigitos, List.foldl_append]

theorem toDigitsCore_spec (fuel : Nat) :
    ∀ (n : Nat) (acc : Texto), n < fuel →
      ∃ ds, Nat.toDigitsCore 10 fuel n acc = ds ++ acc ∧ ds ≠ [] ∧
        (∀ c ∈ ds, isdigit c = true) ∧ valorDigitos ds = n := by
  induction fuel with
  | zero => intro n acc h; omega
  | succ fuel ih =>
    intro n acc h
    have hd := digitChar_digito (n % 10) (Nat.mod_lt _ (by decide))
    by_cases h0 : n / 10 = 0
    · refine ⟨[Nat.digitChar (n % 10)], ?_, by simp, ?_, ?_⟩
      · simp [Nat.toDigitsCore, h0]
      · intro c hc
        simp only [List.mem_singleton] at hc
        rw [hc]; exact hd.1
      · have : valorDigitos [Nat.digitChar (n % 10)] = digitVal (Nat.digitChar (n % 10)) := by
          simp [valorDigitos]
        rw [this, hd.2]
        omega
    · have hlt : n / 10 < fuel := by omega
      obtain ⟨ds, hds, _, hall, hval⟩ := ih (n / 10) (Nat.digitChar (n % 10) :: acc) hlt
      refine ⟨ds ++ [Nat.digitChar (n % 10)], ?_, by simp, ?_, ?_⟩
      · simp [Nat.toDigitsCore, h0, hds]
      · intro c hc
        rcases List.mem_append.mp hc with hc | hc
        · exact hall c hc
        · simp only [List.mem_singleton] at hc
          rw [hc]; exact hd.1
      · rw [valorDigitos_snoc, hval, hd.2]
        omega

theorem toDigits_spec (n : Nat) :
    Nat.toDigits 10 n ≠ [] ∧ (∀ c ∈ Nat.toDigits 10 n, isdigit c = true) ∧
      valorDigitos (Nat.toDigits 10 n) = n := by
  obtain ⟨ds, hds, hne, hall, hval⟩ := toDigitsCore_spec (n + 1) n [] (Nat.lt_succ_self n)
  have : Nat.toDigits 10 n = ds := by simp [Nat.toDigits, hds]
  rw [this]
  exact ⟨hne, hall, hval⟩

theorem leerMagnitud_digitos (ds : Texto) (hne : ds ≠ []) (hall : ∀ c ∈ ds, isdigit c = true) :
    leerMagnitud ds = some (valorDigitos ds) := by
  have htw : ds.takeWhile isdigit = ds := List.takeWhile_eq_self_iff.mpr hall
  unfold leerMagnitud
  rw [htw]
  cases ds with
  | nil => exact absurd rfl hne
  | cons d r => rfl

theorem isdigit_no_especial (c : Char) (h : isdigit c = true) :
    isspace c = false ∧ c ≠ '-' ∧ c ≠ '+' ∧ c ≠ ';' ∧ c ≠ '\n' := by
  simp only [isdigit, Bool.and_eq_true, decide_eq_true_eq] at h
  refine ⟨?_, ?_, ?_, ?_, ?_⟩
  · simp only [isspace, Bool.or_eq_false_iff, beq_eq_false_iff_ne]
    refine ⟨⟨⟨⟨⟨?_, ?_⟩, ?_⟩, ?_⟩, ?_⟩, ?_⟩ <;>
    · intro hc
      rw [hc] at h
      revert h
      decide
  all_goals
    intro hc
    rw [hc] at h
    revert h
    decide

theorem strtol_to_string (i : Int) : strtol (to_string i) = some i := by
  obtain ⟨hne, hall, hval⟩ := toDigits_spec i.natAbs
  by_cases hneg : i < 0
  · have hm := leerMagnitud_digitos _ hne hall
    have : to_string i = '-' :: Nat.toDigits 10 i.natAbs := by simp [to_string, hneg]
    rw [this]
    have hsp : isspace '-' = false := by decide
    simp only [strtol, List.dropWhile_cons, hsp, Bool.false_eq_true, if_false, if_true, hm, hval,
      Option.map_some']
    rw [Option.some.injEq]
    omega
  · have : to_string i = Nat.toDigits 10 i.natAbs := by simp [to_string, hneg]
    rw [this]
    cases hds : Nat.toDigits 10 i.natAbs with
    | nil => exact absurd hds hne
    | cons d r =>
      rw [hds] at hne hall hval
      have hd := isdigit_no_especial d (hall d (List.mem_cons_self _ _))
      have hm := leerMagnitud_digitos _ hne hall
      simp only [strtol, List.dropWhile_cons, hd.1, Bool.false_eq_true, if_false, hd.2.1,
        hd.2.2.1, hm, hval, Option.map_some']
      rw [Option.some.injEq]
      omega

theorem stoi_to_string (i : Int) (h1 : INT_MIN ≤ i) (h2 : i ≤ INT_MAX) :
    stoi (to_string i) = some i := by
  simp [stoi, strtol_to_string, h1, h2]

theorem to_string_ne_nil (i : Int) : to_string i ≠ [] := by
  obtain ⟨hne, _, _⟩ := toDigits_spec i.natAbs
  unfold to_string
  split
  · simp
  · exact hne

theorem to_string_sin_separador (i : Int) : ∀ c ∈ to_string i, c ≠ ';' ∧ c ≠ '\n' := by
  obtain ⟨_, hall, _⟩ := toDigits_spec i.natAbs
  have hdig : ∀ c ∈ Nat.toDigits 10 i.natAbs, c ≠ ';' ∧ c ≠ '\n' := fun c hc =>
    ⟨(isdigit_no_especial c (hall c hc)).2.2.2.1, (isdigit_no_especial c (hall c hc)).2.2.2.2⟩
  intro c hc
  unfold to_string at hc
  split at hc
  · rcases List.mem_cons.mp hc with rfl | hc
    · constructor <;> decide
    · exact hdig c hc
  · exact hdig c hc

/-! ## Streams -/

theorem hastaDelim_append (d : Char) (pre post : Texto) (h : ∀ c ∈ pre, c ≠ d) :
    hastaDelim d (pre ++ d :: post) = (pre, some post) := by
  induction pre with
  | nil => simp [hastaDelim]
  | cons c cs ih =>
    have hc : c ≠ d := h c (List.mem_cons_self _ _)
    have hcs : ∀ x ∈ cs, x ≠ d := fun x hx => h x (List.mem_cons_of_mem _ hx)
    simp [hastaDelim, hc, ih hcs]

theorem hastaDelim_sin (d : Char) (pre : Texto) (h : ∀ c ∈ pre, c ≠ d) :
    hastaDelim d pre = (pre, none) := by
  induction pre with
  | nil => simp [hastaDelim]
  | cons c cs ih =>
    have hc : c ≠ d := h c (List.mem_cons_self _ _)
    have hcs : ∀ x ∈ cs, x ≠ d := fun x hx => h x (List.mem_cons_of_mem _ hx)
    simp [hastaDelim, hc, ih hcs]

theorem hastaDelim_length (d : Char) (s : Texto) :
    ∀ t r, hastaDelim d s = (t, some r) → r.length < s.length := by
  induction s with
  | nil => intro t r h; simp [hastaDelim] at h
  | cons c cs ih =>
    intro t r h
    by_cases hc : c = d
    · simp [hastaDelim, hc] at h
      rw [← h.2]; simp
    · simp only [hastaDelim, hc, if_false, Prod.mk.injEq] at h
      have := ih (hastaDelim d cs).1 r (Prod.ext rfl h.2)
      simp only [List.length_cons]
      omega

theorem getline_none (d : Char) : getline d none = { texto := [], ok := false, flujo := none } :=
  rfl

theorem getline_delim (d : Char) (s t r : Texto) (h : hastaDelim d s = (t, some r)) :
    getline d (some s) = { texto := t, ok := true, flujo := some r } := by
  simp [getline, h]

theorem getline_fin (d : Char) (s t : Texto) (h : hastaDelim d s = (t, none)) :
    getline d (some s) = { texto := t, ok := !t.isEmpty, flujo := none } := by
  simp [getline, h]

theorem partir_ne_nil (d : Char) (s : Texto) : partir d s ≠ [] := by
  cases s with
  | nil => simp [partir]
  | cons c cs =>
    by_cases hc : c = d
    · simp [partir, hc]
    · simp only [partir, hc, if_false]
      split <;> simp

theorem partir_delim (d : Char) (s : Texto) :
    ∀ t r, hastaDelim d s = (t, some r) → partir d s = t :: partir d r := by
  induction s with
  | nil => intro t r h; simp [hastaDelim] at h
  | cons c cs ih =>
    intro t r h
    by_cases hc : c = d
    · simp [hastaDelim, hc] at h
      simp [partir, hc, h.1.symm, h.2]
    · simp only [hastaDelim, hc, if_false, Prod.mk.injEq] at h
      have := ih (hastaDelim d cs).1 r (Prod.ext rfl h.2)
      simp [partir, hc, this, h.1.symm]

theorem partir_fin (d : Char) (s : Texto) :
    ∀ t, hastaDelim d s = (t, none) → partir d s = [t] := by
  induction s with
  | nil => intro t h; simp [hastaDelim] at h; simp [partir, h]
  | cons c cs ih =>
    intro t h
    by_cases hc : c = d
    · simp [hastaDelim, hc] at h
    · simp only [hastaDelim, hc, if_false, Prod.mk.injEq] at h
      have := ih (hastaDelim d cs).1 (Prod.ext rfl h.2)
      simp [partir, hc, this, h.1.symm]

theorem cargarLineas_none (fuel : Nat) (acc : List Estudiante) :
    cargarLineas fuel none acc = acc := by
  cases fuel with
  | zero => rfl
  | succ n => simp [cargarLineas, getline]

theorem procesarLinea_nil (acc : List Estudiante) : procesarLinea acc [] = acc := by
  simp [procesarLinea]

/-- With more `getline` calls allowed than the content has characters, the
reading loop processes exactly the pieces of the content between line feeds,
in order. -/
theorem cargarLineas_eq_foldl (fuel : Nat) :
    ∀ (s : Texto) (acc : List Estudiante), s.length < fuel →
      cargarLineas fuel (some s) acc = (partir '\n' s).foldl procesarLinea acc := by
  induction fuel with
  | zero => intro s acc h; omega
  | succ fuel ih =>
    intro s acc h
    cases hh : hastaDelim '\n' s with
    | mk t r =>
      cases r with
      | none =>
        rw [partir_fin _ _ _ hh]
        simp only [cargarLineas, getline_fin _ _ _ hh, cargarLineas_none, List.foldl_cons,
          List.foldl_nil]
        cases t with
        | nil => simp [procesarLinea_nil]
        | cons c cs => simp
      | some rest =>
        have hlen := hastaDelim_length _ _ _ _ hh
        rw [partir_delim _ _ _ _ hh]
        simp only [cargarLineas, getline_delim _ _ _ _ hh, if_true, List.foldl_cons]
        exact ih rest _ (by omega)

/-- The reading loop ends within the calls it is given: any two bounds above
the length of the content give the same list. -/
theorem cargarLineas_combustible (f1 f2 : Nat) (s : Texto) (acc : List Estudiante)
    (h1 : s.length < f1) (h2 : s.length < f2) :
    cargarLineas f1 (some s) acc = cargarLineas f2 (some s) acc := by
  rw [cargarLineas_eq_foldl f1 s acc h1, cargarLineas_eq_foldl f2 s acc h2]

theorem stoi_nil : stoi [] = none := by decide

/-- One pass of the loop body appends the record the line stands for, if
any. -/
theorem procesarLinea_eq (acc : List Estudiante) (l : Texto) :
    procesarLinea acc l = acc ++ (registroDeLinea l).toList := by
  by_cases hl : l.isEmpty = true
  · simp [procesarLinea, registroDeLinea, hl]
  · rcases h1 : hastaDelim ';' l with ⟨t1, _ | s1⟩
    · simp [procesarLinea, registroDeLinea, hl, leerCampos, getline_fin _ _ _ h1, getline_none,
        partir_fin _ _ _ h1]
    rcases h2 : hastaDelim ';' s1 with ⟨t2, _ | s2⟩
    · simp [procesarLinea, registroDeLinea, hl, leerCampos, getline_delim _ _ _ _ h1,
        getline_fin _ _ _ h2, getline_none, partir_delim _ _ _ _ h1, partir_fin _ _ _ h2]
    rcases h3 : hastaDelim ';' s2 with ⟨t3, _ | s3⟩
    · simp [procesarLinea, registroDeLinea, hl, leerCampos, getline_delim _ _ _ _ h1,
        getline_delim _ _ _ _ h2, getline_fin _ _ _ h3, getline_none, partir_delim _ _ _ _ h1,
        partir_delim _ _ _ _ h2, partir_fin _ _ _ h3]
    rcases h4 : hastaDelim ';' s3 with ⟨t4, _ | s4⟩
    · simp [procesarLinea, registroDeLinea, hl, leerCampos, getline_delim _ _ _ _ h1,
        getline_delim _ _ _ _ h2, getline_delim _ _ _ _ h3, getline_fin _ _ _ h4, getline_none,
        partir_delim _ _ _ _ h1, partir_delim _ _ _ _ h2, partir_delim _ _ _ _ h3,
        partir_fin _ _ _ h4]
    rcases h5 : hastaDelim ';' s4 with ⟨t5, _ | s5⟩
    · cases t5 with
      | nil =>
        simp [procesarLinea, registroDeLinea, hl, leerCampos, getline_delim _ _ _ _ h1,
          getline_delim _ _ _ _ h2, getline_delim _ _ _ _ h3, getline_delim _ _ _ _ h4,
          getline_fin _ _ _ h5, partir_delim _ _ _ _ h1, partir_delim _ _ _ _ h2,
          partir_delim _ _ _ _ h3, partir_delim _ _ _ _ h4, partir_fin _ _ _ h5, stoi_nil]
      | cons c cs =>
        cases hi : stoi t1 <;> cases ha : stoi (c :: cs) <;>
          simp [procesarLinea, registroDeLinea, hl, leerCampos, getline_delim _ _ _ _ h1,
            getline_delim _ _ _ _ h2, getline_delim _ _ _ _ h3, getline_delim _ _ _ _ h4,
            getline_fin _ _ _ h5, partir_delim _ _ _ _ h1, partir_delim _ _ _ _ h2,
            partir_delim _ _ _ _ h3, partir_delim _ _ _ _ h4, partir_fin _ _ _ h5, hi, ha,
            agregarAlFinal_eq]
    · cases hi : stoi t1 <;> cases ha : stoi t5 <;>
        simp [procesarLinea, registroDeLinea, hl, leerCampos, getline_delim _ _ _ _ h1,
          getline_delim _ _ _ _ h2, getline_delim _ _ _ _ h3, getline_delim _ _ _ _ h4,
          getline_delim _ _ _ _ h5, partir_delim _ _ _ _ h1, partir_delim _ _ _ _ h2,
          partir_delim _ _ _ _ h3, partir_delim _ _ _ _ h4, partir_delim _ _ _ _ h5, hi, ha,
          agregarAlFinal_eq]

theorem foldl_procesarLinea (lineas : List Texto) :
    ∀ acc : List Estudiante,
      lineas.foldl procesarLinea acc = acc ++ lineas.filterMap registroDeLinea := by
  induction lineas with
  | nil => intro acc; simp
  | cons l resto ih =>
    intro acc
    rw [List.foldl_cons, ih, procesarLinea_eq]
    cases hr : registroDeLinea l <;> simp [List.filterMap_cons, hr]

theorem hastaDelim_fst (d : Char) (s : Texto) :
    (hastaDelim d s).1 = s.takeWhile (fun c => c != d) := by
  induction s with
  | nil => rfl
  | cons c cs ih =>
    by_cases hc : c = d
    · simp [hastaDelim, hc]
    · simp [hastaDelim, hc, ih]

theorem getline_texto (d : Char) (s : Texto) :
    (getline d (some s)).texto = s.takeWhile (fun c => c != d) := by
  rw [← hastaDelim_fst]
  rcases h : hastaDelim d s with ⟨t, _ | r⟩
  · simp [getline, h]
  · simp [getline, h]

/-! ## Load -/

/-- C7 (as stated, refuted). The line "1x;a;b;c;2020y" has an id field and a
year field that are not integers, yet `CargarArchivo` loads it as the record
with id 1 and year 2020; and the line "99999999999;a;b;c;1", whose id field
and year field are integers, is skipped. -/
theorem CargarArchivo_no_estricto :
    (esEntero "1x".toList = false ∧ esEntero "2020y".toList = false ∧
      (CargarArchivo estadoInicial
        { registros_csv := some "1x;a;b;c;2020y\n".toList, ultimo_id_txt := none }).1.lista =
        [{ id := 1, nombre := "a".toList, correo := "b".toList, carrera := "c".toList,
           anio := 2020 }]) ∧
    (esEntero "99999999999".toList = true ∧ esEntero "1".toList = true ∧
      (CargarArchivo estadoInicial
        { registros_csv := some "99999999999;a;b;c;1\n".toList,
          ultimo_id_txt := none }).1.lista = []) := by
  refine ⟨⟨?_, ?_, ?_⟩, ⟨?_, ?_, ?_⟩⟩ <;> decide

theorem lista_cargada (s : Estado) (contenido : Texto) (u : Option Texto) :
    (CargarArchivo s { registros_csv := some contenido, ultimo_id_txt := u }).1.lista =
      (partir '\n' contenido).filterMap registroDeLinea := by
  simp only [CargarArchivo]
  rw [cargarLineas_eq_foldl _ _ _ (by omega), foldl_procesarLinea]
  simp

theorem ultimoId_cargado (s : Estado) (r u : Option Texto) :
    (CargarArchivo s { registros_csv := r, ultimo_id_txt := u }).1.ultimoId =
      cargarUltimoId s.ultimoId u := by
  cases r <;> rfl

/-- C7 (amended). After `CargarArchivo` the list consists exactly of one
record per accepted line of the record file, in file order: a line is
accepted when it is non-empty, has at least 5 semicolon-delimited fields, and
`stoi` converts its first and its fifth field (optional white space, optional
sign, a run of digits whose value fits an `int`; what follows the digits is
ignored). Every other line contributes nothing and does not stop the lines
after it. -/
theorem CargarArchivo_lista (s : Estado) (contenido : Texto) (u : Option Texto) :
    (CargarArchivo s { registros_csv := some contenido, ultimo_id_txt := u }).1.lista =
      (partir '\n' contenido).filterMap registroDeLinea :=
  lista_cargada s contenido u

/-- C8 (as stated, refuted). With a prior `ultimoId` of 5, `CargarArchivo`
leaves `ultimoId` at 5, not 0, when the checkpoint file is missing and when it
is present but empty; a checkpoint holding "12abc" gives 12, and one holding
the decimal integer "99999999999" gives 0. -/
theorem CargarArchivo_ultimoId_no_cero :
    (CargarArchivo { lista := [], ultimoId := 5 }
      { registros_csv := none, ultimo_id_txt := none }).1.ultimoId = 5 ∧
    (CargarArchivo { lista := [], ultimoId := 5 }
      { registros_csv := none, ultimo_id_txt := some [] }).1.ultimoId = 5 ∧
    (esEntero "12abc".toList = false ∧
      (CargarArchivo { lista := [], ultimoId := 5 }
        { registros_csv := none, ultimo_id_txt := some "12abc".toList }).1.ultimoId = 12) ∧
    (esEntero "99999999999".toList = true ∧
      (CargarArchivo { lista := [], ultimoId := 5 }
        { registros_csv := none, ultimo_id_txt := some "99999999999".toList }).1.ultimoId = 0) := by
  refine ⟨?_, ?_, ⟨?_, ?_⟩, ⟨?_, ?_⟩⟩ <;> decide

theorem cargarUltimoId_eq (previo : Int) (contenido : Texto) :
    cargarUltimoId previo (some contenido) =
      if primeraLinea contenido = [] then previo
      else (stoi (primeraLinea contenido)).getD 0 := by
  simp only [cargarUltimoId, getline_texto, primeraLinea]
  by_cases h : List.takeWhile (fun c => c != '\n') contenido = []
  · simp [h]
  · have h2 : (List.takeWhile (fun c => c != '\n') contenido).isEmpty = false := by
      cases hh : List.takeWhile (fun c => c != '\n') contenido with
      | nil => exact absurd hh h
      | cons a b => rfl
    simp only [h2, h, if_false, Bool.not_false, if_true]
    cases stoi (List.takeWhile (fun c => c != '\n') contenido) <;> rfl

theorem primeraLinea_to_string (v : Int) : primeraLinea (to_string v) = to_string v := by
  unfold primeraLinea
  rw [List.takeWhile_eq_self_iff]
  intro c hc
  simpa using (to_string_sin_separador v c hc).2

theorem cargarUltimoId_to_string (previo v : Int) (h1 : INT_MIN ≤ v) (h2 : v ≤ INT_MAX) :
    cargarUltimoId previo (some (to_string v)) = v := by
  rw [cargarUltimoId_eq, primeraLinea_to_string, stoi_to_string v h1 h2]
  simp [to_string_ne_nil]

/-- C8 (amended). After `CargarArchivo`, `ultimoId` keeps its prior value when
the checkpoint file is missing or its first line is empty; otherwise it is
the value `stoi` converts from the first line, and 0 when `stoi` rejects that
line (no leading integer, or a value that does not fit an `int`). In
particular a checkpoint holding the decimal rendering of an `int` gives that
`int`. -/
theorem CargarArchivo_ultimoId (s : Estado) (r : Option Texto) :
    (CargarArchivo s { registros_csv := r, ultimo_id_txt := none }).1.ultimoId = s.ultimoId ∧
    (∀ contenido : Texto,
      (CargarArchivo s { registros_csv := r, ultimo_id_txt := some contenido }).1.ultimoId =
        if primeraLinea contenido = [] then s.ultimoId
        else (stoi (primeraLinea contenido)).getD 0) ∧
    (∀ v : Int, INT_MIN ≤ v → v ≤ INT_MAX →
      (CargarArchivo s { registros_csv := r, ultimo_id_txt := some (to_string v) }).1.ultimoId
        = v) := by
  refine ⟨?_, ?_, ?_⟩
  · rw [ultimoId_cargado]; rfl
  · intro contenido
    rw [ultimoId_cargado, cargarUltimoId_eq]
  · intro v h1 h2
    rw [ultimoId_cargado, cargarUltimoId_to_string _ _ h1 h2]

/-- Concrete instance of `CargarArchivo_ultimoId`: the checkpoint written for
the value 7 restores 7. -/
theorem CargarArchivo_ultimoId_witness :
    INT_MIN ≤ 7 ∧ (7 : Int) ≤ INT_MAX ∧
    (CargarArchivo ejEstado
      { registros_csv := none, ultimo_id_txt := some (to_string 7) }).1.ultimoId = 7 :=
  ⟨by decide, by decide, (CargarArchivo_ultimoId ejEstado none).2.2 7 (by decide) (by decide)⟩

/-! ## Save then Load -/

theorem escribirRegistro_eq (e : Estudiante) : escribirRegistro e = lineaDe e ++ ['\n'] := by
  simp [escribirRegistro, lineaDe]

theorem partir_campo (pre post : Texto) (h : ∀ c ∈ pre, c ≠ ';') :
    partir ';' (pre ++ ';' :: post) = pre :: partir ';' post :=
  partir_delim _ _ _ _ (hastaDelim_append ';' pre post h)

theorem registroDeLinea_lineaDe (e : Estudiante)
    (hid : INT_MIN ≤ e.id ∧ e.id ≤ INT_MAX) (hanio : INT_MIN ≤ e.anio ∧ e.anio ≤ INT_MAX)
    (hsep : ∀ c ∈ e.nombre ++ e.correo ++ e.carrera, c ≠ ';' ∧ c ≠ '\n') :
    registroDeLinea (lineaDe e) = some e := by
  have hn : ∀ c ∈ e.nombre, c ≠ ';' := fun c hc => (hsep c (by simp [hc])).1
  have hc : ∀ c ∈ e.correo, c ≠ ';' := fun c hc => (hsep c (by simp [hc])).1
  have hk : ∀ c ∈ e.carrera, c ≠ ';' := fun c hc => (hsep c (by simp [hc])).1
  have hi : ∀ c ∈ to_string e.id, c ≠ ';' := fun c hc => (to_string_sin_separador _ c hc).1
  have ha : ∀ c ∈ to_string e.anio, c ≠ ';' := fun c hc => (to_string_sin_separador _ c hc).1
  have hne : (lineaDe e).isEmpty = false := by
    have := to_string_ne_nil e.id
    cases h : to_string e.id with
    | nil => exact absurd h this
    | cons a b => simp [lineaDe, h]
  have hp : partir ';' (lineaDe e) =
      [to_string e.id, e.nombre, e.correo, e.carrera, to_string e.anio] := by
    unfold lineaDe
    rw [partir_campo _ _ hi, partir_campo _ _ hn, partir_campo _ _ hc, partir_campo _ _ hk,
      partir_fin _ _ _ (hastaDelim_sin ';' _ ha)]
  unfold registroDeLinea
  simp only [hne, Bool.false_eq_true, if_false, hp, stoi_to_string _ hid.1 hid.2,
    stoi_to_string _ hanio.1 hanio.2]

theorem lineaDe_sin_salto (e : Estudiante)
    (hsep : ∀ c ∈ e.nombre ++ e.correo ++ e.carrera, c ≠ '\n') :
    ∀ c ∈ lineaDe e, c ≠ '\n' := by
  intro c hc
  simp only [lineaDe, List.mem_append, List.mem_cons] at hc
  have hi := fun h => (to_string_sin_separador e.id c h).2
  have ha := fun h => (to_string_sin_separador e.anio c h).2
  have hs : c = ';' → c ≠ '\n' := by
    intro h; rw [h]; decide
  rcases hc with h | h | h | h | h | h | h | h | h
  · exact hi h
  · exact hs h
  · exact hsep c (by simp [h])
  · exact hs h
  · exact hsep c (by simp [h])
  · exact hs h
  · exact hsep c (by simp [h])
  · exact hs h
  · exact ha h

theorem filterMap_escribirLista (l : List Estudiante)
    (hr : ∀ e ∈ l, (INT_MIN ≤ e.id ∧ e.id ≤ INT_MAX) ∧ (INT_MIN ≤ e.anio ∧ e.anio ≤ INT_MAX))
    (hs : ∀ e ∈ l, ∀ c ∈ e.nombre ++ e.correo ++ e.carrera, c ≠ ';' ∧ c ≠ '\n') :
    (partir '\n' (escribirLista l)).filterMap registroDeLinea = l := by
  induction l with
  | nil => simp [escribirLista, partir, registroDeLinea]
  | cons e resto ih =>
    have he := hr e (List.mem_cons_self _ _)
    have hse := hs e (List.mem_cons_self _ _)
    have ih' := ih (fun x hx => hr x (List.mem_cons_of_mem _ hx))
      (fun x hx => hs x (List.mem_cons_of_mem _ hx))
    have hp : partir '\n' (escribirLista (e :: resto)) =
        lineaDe e :: partir '\n' (escribirLista resto) := by
      simp only [escribirLista, escribirRegistro_eq, List.append_assoc, List.singleton_append]
      exact partir_delim _ _ _ _ (hastaDelim_append '\n' _ _
        (lineaDe_sin_salto e (fun c hc => (hse c hc).2)))
    rw [hp, List.filterMap_cons, registroDeLinea_lineaDe e he.1 he.2 hse, ih']

/-- Loading, from any state, the two files a successful save of `s` wrote
gives back `s`. -/
theorem cargar_guardado (s previo : Estado) (fs : Archivos) (hr : EnRango s)
    (hs : SinSeparadores s) :
    CargarArchivo previo (GuardarArchivo true true s fs).1 = (s, Mensaje.cargado) := by
  have hl := filterMap_escribirLista s.lista hr.2 hs
  have hfs : (GuardarArchivo true true s fs).1 =
      { registros_csv := some (escribirLista s.lista),
        ultimo_id_txt := some (to_string s.ultimoId) } := by
    simp [GuardarArchivo]
  have h1 := lista_cargada previo (escribirLista s.lista) (some (to_string s.ultimoId))
  have h2 := ultimoId_cargado previo (some (escribirLista s.lista))
    (some (to_string s.ultimoId))
  rw [cargarUltimoId_to_string _ _ hr.1.1 hr.1.2] at h2
  rw [hfs]
  rw [hl] at h1
  cases hc : CargarArchivo previo
      { registros_csv := some (escribirLista s.lista),
        ultimo_id_txt := some (to_string s.ultimoId) } with
  | mk st m =>
    have h3 : m = Mensaje.cargado := by
      have : (CargarArchivo previo
          { registros_csv := some (escribirLista s.lista),
            ultimo_id_txt := some (to_string s.ultimoId) }).2 = Mensaje.cargado := rfl
      rw [hc] at this
      exact this
    rw [hc] at h1 h2
    cases st
    cases s
    simp_all

/-- C9. For every store state (all its `int`s being `int`s) in which no name,
email or program contains a semicolon or a line feed, `GuardarArchivo`
followed by `CargarArchivo` on the files just written restores exactly the
same list of records and the same `ultimoId`; empty texts and zero or negative
ids and years are included. -/
theorem GuardarArchivo_CargarArchivo (s : Estado) (fs : Archivos) (hr : EnRango s)
    (hs : SinSeparadores s) :
    CargarArchivo s (GuardarArchivo true true s fs).1 = (s, Mensaje.cargado) :=
  cargar_guardado s s fs hr hs

/-- Concrete instance of `GuardarArchivo_CargarArchivo`: empty texts, id 0,
negative id, year 0 and negative year. -/
theorem GuardarArchivo_CargarArchivo_witness :
    EnRango ejExtremo ∧ SinSeparadores ejExtremo ∧
    CargarArchivo ejExtremo (GuardarArchivo true true ejExtremo sinArchivos).1 =
      (ejExtremo, Mensaje.cargado) :=
  ⟨by decide, by decide,
    GuardarArchivo_CargarArchivo ejExtremo sinArchivos (by decide) (by decide)⟩

/-- C1 (as stated, refuted). A record whose name is "a;b" is lost: saving,
emptying the list and loading the two files just written gives an empty
list. -/
theorem guardar_vaciar_cargar_pierde :
    (GuardarArchivo true true ejPuntoYComa sinArchivos).1.registros_csv =
      some "1;a;b;c;d;2020\n".toList ∧
    (CargarArchivo { lista := [], ultimoId := ejPuntoYComa.ultimoId }
      (GuardarArchivo true true ejPuntoYComa sinArchivos).1).1.lista = [] ∧
    ejPuntoYComa.lista ≠ [] := by
  refine ⟨?_, ?_, ?_⟩ <;> decide

/-- C1 (amended). For every store state (all its `int`s being `int`s) in
which no name, email or program contains a semicolon or a line feed:
`GuardarArchivo`, then emptying the list, then `CargarArchivo` on the two
files just written yields the same records in the same order and the same
`ultimoId`. -/
theorem guardar_vaciar_cargar (s : Estado) (fs : Archivos) (hr : EnRango s)
    (hs : SinSeparadores s) :
    (CargarArchivo { lista := [], ultimoId := s.ultimoId }
      (GuardarArchivo true true s fs).1).1 = s := by
  rw [cargar_guardado s _ fs hr hs]

/-- Concrete instance of `guardar_vaciar_cargar` on the two-record store. -/
theorem guardar_vaciar_cargar_witness :
    EnRango ejEstado ∧ SinSeparadores ejEstado ∧
    (CargarArchivo { lista := [], ultimoId := ejEstado.ultimoId }
      (GuardarArchivo true true ejEstado sinArchivos).1).1 = ejEstado :=
  ⟨by decide, by decide, guardar_vaciar_cargar ejEstado sinArchivos (by decide) (by decide)⟩

/-! ## The id invariant -/

theorem agregar_casos (s : Estado) (n c k a : Texto) :
    AgregarEstudiante s n c k a = (s, some Mensaje.camposObligatorios) ∨
    AgregarEstudiante s n c k a = (s, some Mensaje.anioPositivo) ∨
    AgregarEstudiante s n c k a =
      ({ lista := s.lista ++ [{ id := wrapInt (s.ultimoId + 1), nombre := GetWindowText n 100,
                                correo := GetWindowText c 100, carrera := GetWindowText k 100,
                                anio := atoi (GetWindowText a 10) }],
         ultimoId := wrapInt (s.ultimoId + 1) }, none) := by
  unfold AgregarEstudiante
  simp only [GenerarId, agregarAlFinal_eq]
  split
  · left; rfl
  · split
    · right; left; rfl
    · right; right; rfl

theorem modificarNodo_ids (id : Int) (nombre correo carrera : Texto) (anio : Int)
    (l : List Estudiante) :
    (modificarNodo id nombre correo carrera anio l).1.map (fun e => e.id) =
      l.map (fun e => e.id) := by
  induction l with
  | nil => rfl
  | cons e resto ih =>
    by_cases he : e.id = id
    · simp [modificarNodo, he]
    · simp [modificarNodo, he, ih]

theorem modificar_ids (s : Estado) (i n c k a : Texto) :
    (ModificarEstudiante s i n c k a).1.lista.map (fun e => e.id) =
      s.lista.map (fun e => e.id) ∧
    (ModificarEstudiante s i n c k a).1.ultimoId = s.ultimoId := by
  unfold ModificarEstudiante
  simp only
  split
  · exact ⟨rfl, rfl⟩
  · split
    · exact ⟨rfl, rfl⟩
    · split
      · exact ⟨rfl, rfl⟩
      · split <;> exact ⟨modificarNodo_ids _ _ _ _ _ _, rfl⟩

theorem eliminarNodo_sublist (id : Int) (l : List Estudiante) :
    (eliminarNodo id l).1.Sublist l := by
  induction l with
  | nil => exact List.Sublist.refl _
  | cons e resto ih =>
    by_cases he : e.id = id
    · simp [eliminarNodo, he]
    · simp only [eliminarNodo, he, if_false]
      exact List.Sublist.cons₂ _ ih

theorem eliminar_sublist (s : Estado) (b : Texto) :
    (EliminarEstudiante s b).1.lista.Sublist s.lista ∧
    (EliminarEstudiante s b).1.ultimoId = s.ultimoId := by
  unfold EliminarEstudiante
  simp only
  split
  · exact ⟨List.Sublist.refl _, rfl⟩
  · split
    · exact ⟨List.Sublist.refl _, rfl⟩
    · split <;> exact ⟨eliminarNodo_sublist _ _, rfl⟩

theorem IdsValidos_iff (s : Estado) :
    IdsValidos s ↔ (s.lista.map (fun e => e.id)).Nodup ∧
      ∀ i ∈ s.lista.map (fun e => e.id), 1 ≤ i ∧ i ≤ s.ultimoId := by
  unfold IdsValidos
  simp

theorem agregar_valido (s : Estado) (n c k a : Texto) (h : IdsValidos s)
    (h0 : 0 ≤ s.ultimoId) (hmax : s.ultimoId < INT_MAX) :
    IdsValidos (AgregarEstudiante s n c k a).1 ∧
      s.ultimoId ≤ (AgregarEstudiante s n c k a).1.ultimoId ∧
      (AgregarEstudiante s n c k a).1.ultimoId ≤ s.ultimoId + 1 := by
  have hw : wrapInt (s.ultimoId + 1) = s.ultimoId + 1 := by
    apply wrapInt_of_range
    · unfold INT_MIN; omega
    · unfold INT_MAX at *; omega
  rcases agregar_casos s n c k a with hc | hc | hc
  · rw [hc]; exact ⟨h, le_refl _, by simp⟩
  · rw [hc]; exact ⟨h, le_refl _, by simp⟩
  · rw [hc, hw]
    refine ⟨?_, by simp, by simp⟩
    rw [IdsValidos_iff] at h ⊢
    obtain ⟨hnd, hb⟩ := h
    simp only [List.map_append, List.map_cons, List.map_nil]
    constructor
    · rw [List.nodup_append]
      refine ⟨hnd, List.nodup_singleton _, ?_⟩
      intro x hx hx'
      simp only [List.mem_singleton] at hx'
      have := (hb x hx).2
      omega
    · intro i hi
      rcases List.mem_append.mp hi with hi | hi
      · have := hb i hi
        omega
      · simp only [List.mem_singleton] at hi
        omega

theorem modificar_valido (s : Estado) (i n c k a : Texto) (h : IdsValidos s) :
    IdsValidos (ModificarEstudiante s i n c k a).1 := by
  rw [IdsValidos_iff] at h ⊢
  rw [(modificar_ids s i n c k a).1, (modificar_ids s i n c k a).2]
  exact h

theorem eliminar_valido (s : Estado) (b : Texto) (h : IdsValidos s) :
    IdsValidos (EliminarEstudiante s b).1 := by
  rw [IdsValidos_iff] at h ⊢
  have hsub := ((eliminar_sublist s b).1).map (fun e => e.id)
  rw [(eliminar_sublist s b).2]
  exact ⟨h.1.sublist hsub, fun i hi => h.2 i (hsub.subset hi)⟩

/-- C10 (as stated, refuted). The empty store with `ultimoId = -1` satisfies
the predicate, and after a valid add the new record has id 0; the empty store
with `ultimoId = INT_MAX` satisfies it too, and after a valid add the counter
has wrapped and the new record has id `INT_MIN`. -/
theorem IdsValidos_no_preservado :
    (IdsValidos { lista := [], ultimoId := -1 } ∧
      ¬ IdsValidos (AgregarEstudiante { lista := [], ultimoId := -1 } "Ana".toList
          "a@x.com".toList "CS".toList "2023".toList).1) ∧
    (IdsValidos { lista := [], ultimoId := 2147483647 } ∧
      ¬ IdsValidos (AgregarEstudiante { lista := [], ultimoId := 2147483647 } "Ana".toList
          "a@x.com".toList "CS".toList "2023".toList).1) := by
  refine ⟨⟨?_, ?_⟩, ⟨?_, ?_⟩⟩ <;> decide

/-- C10 (amended). The predicate "the ids are pairwise distinct, every id
satisfies 1 <= id <= ultimoId, and 0 <= ultimoId" holds in the initial store
and is preserved by `ModificarEstudiante` and `EliminarEstudiante` for every
input, and by `AgregarEstudiante` for every input when `ultimoId` is below
`INT_MAX`. -/
theorem IdsValidos_preservado (s : Estado) (h : IdsValidos s) (h0 : 0 ≤ s.ultimoId) :
    (IdsValidos estadoInicial ∧ 0 ≤ estadoInicial.ultimoId) ∧
    (s.ultimoId < INT_MAX → ∀ n c k a : Texto,
      IdsValidos (AgregarEstudiante s n c k a).1 ∧
        0 ≤ (AgregarEstudiante s n c k a).1.ultimoId) ∧
    (∀ i n c k a : Texto,
      IdsValidos (ModificarEstudiante s i n c k a).1 ∧
        0 ≤ (ModificarEstudiante s i n c k a).1.ultimoId) ∧
    (∀ b : Texto,
      IdsValidos (EliminarEstudiante s b).1 ∧ 0 ≤ (EliminarEstudiante s b).1.ultimoId) := by
  refine ⟨⟨by decide, by decide⟩, ?_, ?_, ?_⟩
  · intro hmax n c k a
    have := agregar_valido s n c k a h h0 hmax
    exact ⟨this.1, by omega⟩
  · intro i n c k a
    exact ⟨modificar_valido s i n c k a h, by rw [(modificar_ids s i n c k a).2]; exact h0⟩
  · intro b
    exact ⟨eliminar_valido s b h, by rw [(eliminar_sublist s b).2]; exact h0⟩

/-- Concrete instance of `IdsValidos_preservado`: a valid add on the
two-record store keeps the predicate. -/
theorem IdsValidos_preservado_witness :
    IdsValidos ejEstado ∧ 0 ≤ ejEstado.ultimoId ∧ ejEstado.ultimoId < INT_MAX ∧
    IdsValidos (AgregarEstudiante ejEstado "Cy".toList "c@x.com".toList "Art".toList
      "2021".toList).1 :=
  ⟨by decide, by decide, by decide,
    ((IdsValidos_preservado ejEstado (by decide) (by decide)).2.1 (by decide) "Cy".toList
      "c@x.com".toList "Art".toList "2021".toList).1⟩

/-! ## Runs of operations -/

theorem ultimoId_cargado_gen (s : Estado) (fs : Archivos) :
    (CargarArchivo s fs).1.ultimoId = cargarUltimoId s.ultimoId fs.ultimo_id_txt := by
  cases fs with
  | mk r u => exact ultimoId_cargado s r u

theorem agregar_ultimoId (s : Estado) (n c k a : Texto) (h0 : 0 ≤ s.ultimoId)
    (hmax : s.ultimoId < INT_MAX) :
    s.ultimoId ≤ (AgregarEstudiante s n c k a).1.ultimoId ∧
    (AgregarEstudiante s n c k a).1.ultimoId ≤ s.ultimoId + 1 ∧
    ∀ i, idAsignado { estado := s, archivos := fs } (Operacion.agregar n c k a) = some i →
      i = (AgregarEstudiante s n c k a).1.ultimoId ∧ s.ultimoId < i := by
  have hw : wrapInt (s.ultimoId + 1) = s.ultimoId + 1 := by
    apply wrapInt_of_range
    · unfold INT_MIN; omega
    · unfold INT_MAX at *; omega
  rcases agregar_casos s n c k a with hc | hc | hc
  · simp [idAsignado, hc]
  · simp [idAsignado, hc]
  · simp [idAsignado, hc, hw]

theorem paso_sin_cargar (sys : Sistema) (op : Operacion) (hop : op ≠ Operacion.cargar)
    (h0 : 0 ≤ sys.estado.ultimoId) (hmax : sys.estado.ultimoId < INT_MAX) :
    sys.estado.ultimoId ≤ (WindowProcedure sys op).estado.ultimoId ∧
    (WindowProcedure sys op).estado.ultimoId ≤ sys.estado.ultimoId + 1 ∧
    ∀ i, idAsignado sys op = some i →
      i = (WindowProcedure sys op).estado.ultimoId ∧ sys.estado.ultimoId < i := by
  cases op with
  | agregar n c k a =>
    have := @agregar_ultimoId sys.archivos sys.estado n c k a h0 hmax
    exact this
  | modificar i n c k a =>
    simp [WindowProcedure, idAsignado, (modificar_ids sys.estado i n c k a).2]
  | eliminar b =>
    simp [WindowProcedure, idAsignado, (eliminar_sublist sys.estado b).2]
  | guardar x y => simp [WindowProcedure, idAsignado]
  | cargar => exact absurd rfl hop

theorem paso_valido (sys : Sistema) (op : Operacion) (hop : op ≠ Operacion.cargar)
    (h : IdsValidos sys.estado) (h0 : 0 ≤ sys.estado.ultimoId)
    (hmax : sys.estado.ultimoId < INT_MAX) :
    IdsValidos (WindowProcedure sys op).estado := by
  cases op with
  | agregar n c k a => exact (agregar_valido sys.estado n c k a h h0 hmax).1
  | modificar i n c k a => exact modificar_valido sys.estado i n c k a h
  | eliminar b => exact eliminar_valido sys.estado b h
  | guardar x y => exact h
  | cargar => exact absurd rfl hop

theorem ejecutar_valido (ops : List Operacion) :
    ∀ sys : Sistema, (∀ o ∈ ops, o ≠ Operacion.cargar) → IdsValidos sys.estado →
      0 ≤ sys.estado.ultimoId → sys.estado.ultimoId + ops.length ≤ INT_MAX →
      IdsValidos (ejecutar sys ops).estado := by
  induction ops with
  | nil => intro sys _ h _ _; exact h
  | cons op resto ih =>
    intro sys hno h h0 hlen
    have hop := hno op (List.mem_cons_self _ _)
    simp only [List.length_cons, Nat.cast_add, Nat.cast_one] at hlen
    have hmax : sys.estado.ultimoId < INT_MAX := by omega
    have hp := paso_sin_cargar sys op hop h0 hmax
    have hv := paso_valido sys op hop h h0 hmax
    simp only [ejecutar, List.foldl_cons]
    exact ih (WindowProcedure sys op) (fun o ho => hno o (List.mem_cons_of_mem _ ho)) hv
      (by omega) (by omega)

theorem Cota_mono (k k' : Int) (sys : Sistema) (h : Cota k sys) (hk : k ≤ k') : Cota k' sys := by
  obtain ⟨⟨h0, h1⟩, h2⟩ := h
  refine ⟨⟨h0, by omega⟩, ?_⟩
  intro t ht
  obtain ⟨v, hv0, hv1, hv⟩ := h2 t ht
  exact ⟨v, hv0, by omega, hv⟩

/-- C3 (as stated, refuted). From the empty store, one load of a record
file that carries the id 1 on two lines leaves two records with the same
id. -/
theorem ids_repetidos_tras_cargar :
    (ejecutar { estado := estadoInicial, archivos := archivosRepetidos }
      [Operacion.cargar]).estado.lista.map (fun e => e.id) = [1, 1] ∧
    ¬ ((ejecutar { estado := estadoInicial, archivos := archivosRepetidos }
      [Operacion.cargar]).estado.lista.map (fun e => e.id)).Nodup := by
  constructor <;> decide

/-- Whatever the files hold, a run of at most 2147483647 add, update, delete
and save operations from the empty store never gives two records the same
id. -/
theorem ids_distintos_sin_cargar (fs : Archivos) (ops : List Operacion)
    (hno : ∀ o ∈ ops, o ≠ Operacion.cargar) (hlen : ops.length ≤ 2147483647) :
    ((ejecutar { estado := estadoInicial, archivos := fs } ops).estado.lista.map
      (fun e => e.id)).Nodup := by
  have hv : IdsValidos estadoInicial := by decide
  have h0 : (0 : Int) ≤ estadoInicial.ultimoId := by decide
  have h := ejecutar_valido ops { estado := estadoInicial, archivos := fs } hno hv h0 (by
      show (0 : Int) + (ops.length : Int) ≤ INT_MAX
      unfold INT_MAX
      omega)
  exact h.1

theorem isdigit_digitVal (c : Char) (h : isdigit c = true) : digitVal c ≤ 9 := by
  simp only [isdigit, Bool.and_eq_true, decide_eq_true_eq] at h
  unfold digitVal
  omega

theorem foldl_digitos_lt (ds : Texto) :
    ∀ acc : Nat, (∀ c ∈ ds, isdigit c = true) →
      ds.foldl (fun a c => a * 10 + digitVal c) acc < (acc + 1) * 10 ^ ds.length := by
  induction ds with
  | nil => intro acc _; simp
  | cons c cs ih =>
    intro acc h
    have hc := isdigit_digitVal c (h c (List.mem_cons_self _ _))
    have := ih (acc * 10 + digitVal c) (fun x hx => h x (List.mem_cons_of_mem _ hx))
    simp only [List.foldl_cons, List.length_cons]
    calc List.foldl (fun a c => a * 10 + digitVal c) (acc * 10 + digitVal c) cs
        < (acc * 10 + digitVal c + 1) * 10 ^ cs.length := this
      _ ≤ (acc * 10 + 10) * 10 ^ cs.length := Nat.mul_le_mul_right _ (by omega)
      _ = (acc + 1) * 10 ^ (cs.length + 1) := by ring

theorem leerMagnitud_lt (s : Texto) (n : Nat) (h : leerMagnitud s = some n) :
    n < 10 ^ s.length := by
  unfold leerMagnitud at h
  have hall : ∀ c ∈ s.takeWhile isdigit, isdigit c = true := fun c hc =>
    List.mem_takeWhile_imp hc
  have hlen : (s.takeWhile isdigit).length ≤ s.length :=
    (List.takeWhile_sublist isdigit).length_le
  have hb := foldl_digitos_lt (s.takeWhile isdigit) 0 hall
  cases htw : s.takeWhile isdigit with
  | nil => rw [htw] at h; simp at h
  | cons d ds =>
    rw [htw] at h hb hlen
    simp only [Option.some.injEq] at h
    rw [← h]
    unfold valorDigitos
    calc List.foldl (fun a c => a * 10 + digitVal c) 0 (d :: ds)
        < (0 + 1) * 10 ^ (d :: ds).length := hb
      _ = 10 ^ (d :: ds).length := by simp
      _ ≤ 10 ^ s.length := Nat.pow_le_pow_right (by decide) hlen

theorem strtol_abs_lt (s : Texto) (v : Int) (h : strtol s = some v) :
    - (10 ^ s.length : Int) < v ∧ v < (10 ^ s.length : Int) := by
  unfold strtol at h
  have hdl : (s.dropWhile isspace).length ≤ s.length :=
    (List.dropWhile_sublist isspace).length_le
  have hmono : ∀ m : Nat, m ≤ s.length → (10 : Int) ^ m ≤ (10 : Int) ^ s.length := fun m hm =>
    pow_le_pow_right₀ (by decide) hm
  have key : ∀ (r : Texto) (n : Nat), r.length ≤ s.length → leerMagnitud r = some n →
      (n : Int) < (10 ^ s.length : Int) := by
    intro r n hr hn
    have h1 := leerMagnitud_lt r n hn
    have h2 : (n : Int) < (10 : Int) ^ r.length := by exact_mod_cast h1
    exact lt_of_lt_of_le h2 (hmono _ hr)
  cases hd : s.dropWhile isspace with
  | nil => rw [hd] at h; simp at h
  | cons c r =>
    rw [hd] at h hdl
    simp only [List.length_cons] at hdl
    simp only at h
    split at h
    · cases hm : leerMagnitud r with
      | none => rw [hm] at h; simp at h
      | some n =>
        rw [hm] at h
        simp only [Option.map_some', Option.some.injEq] at h
        have := key r n (by omega) hm
        constructor <;> omega
    · split at h
      · cases hm : leerMagnitud r with
        | none => rw [hm] at h; simp at h
        | some n =>
          rw [hm] at h
          simp only [Option.map_some', Option.some.injEq] at h
          have := key r n (by omega) hm
          constructor <;> omega
      · cases hm : leerMagnitud (c :: r) with
        | none => rw [hm] at h; simp at h
        | some n =>
          rw [hm] at h
          simp only [Option.map_some', Option.some.injEq] at h
          have := key (c :: r) n (by simp only [List.length_cons]; omega) hm
          constructor <;> omega

/-- The value `atoi` reads from a 10-character buffer has at most 9 digits, so
it fits an `int` and the conversion never overflows. -/
theorem atoi_GetWindowText_rango (t : Texto) :
    INT_MIN ≤ atoi (GetWindowText t 10) ∧ atoi (GetWindowText t 10) ≤ INT_MAX := by
  have hlen : (GetWindowText t 10).length ≤ 9 := by
    unfold GetWindowText
    exact List.length_take_le _ _
  unfold atoi INT_MIN INT_MAX
  cases h : strtol (GetWindowText t 10) with
  | none => simp
  | some v =>
    have hb := strtol_abs_lt _ v h
    have hp : (10 : Int) ^ (GetWindowText t 10).length ≤ (10 : Int) ^ 9 :=
      pow_le_pow_right₀ (by decide) hlen
    have h9 : (10 : Int) ^ 9 = 1000000000 := by norm_num
    simp only [Option.getD_some]
    constructor <;> omega

theorem wrapInt_rango (x : Int) : INT_MIN ≤ wrapInt x ∧ wrapInt x ≤ INT_MAX := by
  unfold wrapInt INT_MIN INT_MAX
  omega

theorem stoi_rango (t : Texto) (v : Int) (h : stoi t = some v) : INT_MIN ≤ v ∧ v ≤ INT_MAX := by
  unfold stoi at h
  cases hs : strtol t with
  | none => rw [hs] at h; simp at h
  | some w =>
    rw [hs] at h
    simp only at h
    split at h
    · simp only [Option.some.injEq] at h
      rw [← h]
      assumption
    · simp at h

theorem modificarNodo_rango (id : Int) (nombre correo carrera : Texto) (anio : Int)
    (hanio : INT_MIN ≤ anio ∧ anio ≤ INT_MAX) (l : List Estudiante)
    (h : ∀ e ∈ l, (INT_MIN ≤ e.id ∧ e.id ≤ INT_MAX) ∧ (INT_MIN ≤ e.anio ∧ e.anio ≤ INT_MAX)) :
    ∀ e ∈ (modificarNodo id nombre correo carrera anio l).1,
      (INT_MIN ≤ e.id ∧ e.id ≤ INT_MAX) ∧ (INT_MIN ≤ e.anio ∧ e.anio ≤ INT_MAX) := by
  induction l with
  | nil => intro e he; simp [modificarNodo] at he
  | cons a resto ih =>
    have ha := h a (List.mem_cons_self _ _)
    have hr := ih (fun x hx => h x (List.mem_cons_of_mem _ hx))
    intro e he
    by_cases hid : a.id = id
    · simp only [modificarNodo, hid, if_true, List.mem_cons] at he
      rcases he with rfl | he
      · exact ⟨by simpa [hid] using ha.1, hanio⟩
      · exact h e (List.mem_cons_of_mem _ he)
    · simp only [modificarNodo, hid, if_false, List.mem_cons] at he
      rcases he with rfl | he
      · exact ha
      · exact hr e he

theorem registroDeLinea_rango (l : Texto) (e : Estudiante) (h : registroDeLinea l = some e) :
    (INT_MIN ≤ e.id ∧ e.id ≤ INT_MAX) ∧ (INT_MIN ≤ e.anio ∧ e.anio ≤ INT_MAX) := by
  unfold registroDeLinea at h
  split at h
  · simp at h
  · split at h
    · rename_i idStr nombre correo carrera anioStr resto _
      cases hi : stoi idStr with
      | none => rw [hi] at h; simp at h
      | some id =>
        cases ha : stoi anioStr with
        | none => rw [hi, ha] at h; simp at h
        | some anio =>
          rw [hi, ha] at h
          simp only [Option.some.injEq] at h
          rw [← h]
          exact ⟨stoi_rango _ _ hi, stoi_rango _ _ ha⟩
    · simp at h

theorem cargarUltimoId_rango (previo : Int) (u : Option Texto)
    (h : INT_MIN ≤ previo ∧ previo ≤ INT_MAX) :
    INT_MIN ≤ cargarUltimoId previo u ∧ cargarUltimoId previo u ≤ INT_MAX := by
  cases u with
  | none => exact h
  | some contenido =>
    rw [cargarUltimoId_eq]
    split
    · exact h
    · cases hs : stoi (primeraLinea contenido) with
      | none => simp only [Option.getD_none]; constructor <;> decide
      | some v => simpa using stoi_rango _ _ hs

/-- Every operation keeps all the `int`s of the state within the range of
`int`. -/
theorem EnRango_paso (sys : Sistema) (op : Operacion) (h : EnRango sys.estado) :
    EnRango (WindowProcedure sys op).estado := by
  obtain ⟨hu, hl⟩ := h
  cases op with
  | agregar n c k a =>
    simp only [WindowProcedure]
    rcases agregar_casos sys.estado n c k a with hc | hc | hc
    · rw [hc]; exact ⟨hu, hl⟩
    · rw [hc]; exact ⟨hu, hl⟩
    · rw [hc]
      refine ⟨wrapInt_rango _, ?_⟩
      intro e he
      rcases List.mem_append.mp he with he | he
      · exact hl e he
      · simp only [List.mem_singleton] at he
        rw [he]
        exact ⟨wrapInt_rango _, atoi_GetWindowText_rango a⟩
  | modificar i n c k a =>
    refine ⟨by simpa [WindowProcedure, (modificar_ids sys.estado i n c k a).2] using hu, ?_⟩
    simp only [WindowProcedure, ModificarEstudiante]
    split
    · exact hl
    · split
      · exact hl
      · split
        · exact hl
        · split <;> exact modificarNodo_rango _ _ _ _ _ (atoi_GetWindowText_rango a) _ hl
  | eliminar b =>
    refine ⟨by simpa [WindowProcedure, (eliminar_sublist sys.estado b).2] using hu, ?_⟩
    intro e he
    exact hl e ((eliminar_sublist sys.estado b).1.subset he)
  | guardar x y => exact ⟨hu, hl⟩
  | cargar =>
    refine ⟨?_, ?_⟩
    · simp only [WindowProcedure, ultimoId_cargado_gen]
      exact cargarUltimoId_rango _ _ hu
    · simp only [WindowProcedure]
      cases hfs : sys.archivos with
      | mk r u =>
        cases r with
        | none => intro e he; simp [CargarArchivo] at he
        | some contenido =>
          rw [lista_cargada]
          intro e he
          obtain ⟨l, _, hle⟩ := List.mem_filterMap.mp he
          exact registroDeLinea_rango l e hle

/-- Whatever the files hold, every state reached from a state whose `int`s are
within the range of `int` has them within that range too. -/
theorem EnRango_ejecutar (ops : List Operacion) :
    ∀ sys : Sistema, EnRango sys.estado → EnRango (ejecutar sys ops).estado := by
  induction ops with
  | nil => intro sys h; exact h
  | cons op resto ih =>
    intro sys h
    simp only [ejecutar, List.foldl_cons]
    exact ih _ (EnRango_paso sys op h)

/-! ## Runs with loads that do not roll the counter back -/

/-- A stretch without any load rolls nothing back. -/
theorem cargasAlDia_sin_cargar (ops : List Operacion) :
    ∀ sys : Sistema, (∀ o ∈ ops, o ≠ Operacion.cargar) → cargasAlDia sys ops = true := by
  induction ops with
  | nil => intro sys _; rfl
  | cons op resto ih =>
    intro sys hno
    have hop := hno op (List.mem_cons_self _ _)
    have hr := ih (WindowProcedure sys op) (fun o ho => hno o (List.mem_cons_of_mem _ ho))
    cases op with
    | cargar => exact absurd rfl hop
    | agregar n c k a => simp [cargasAlDia, hr]
    | modificar i n c k a => simp [cargasAlDia, hr]
    | eliminar b => simp [cargasAlDia, hr]
    | guardar x y => simp [cargasAlDia, hr]

/-- A load right after a save that wrote both files rolls nothing back,
whatever the state and the files were. -/
theorem cargasAlDia_tras_guardar (sys : Sistema) :
    cargasAlDia sys [Operacion.guardar true true, Operacion.cargar] = true := by
  simp [cargasAlDia, WindowProcedure, GuardarArchivo]

theorem partir_chars (d : Char) (s : Texto) :
    ∀ p ∈ partir d s, ∀ c ∈ p, c ∈ s ∧ c ≠ d := by
  induction s with
  | nil => intro p hp c hc; simp [partir] at hp; rw [hp] at hc; simp at hc
  | cons a cs ih =>
    intro p hp c hc
    by_cases ha : a = d
    · simp only [partir, ha, if_true, List.mem_cons] at hp
      rcases hp with rfl | hp
      · simp at hc
      · have := ih p hp c hc
        exact ⟨List.mem_cons_of_mem _ this.1, this.2⟩
    · simp only [partir, ha, if_false] at hp
      cases hq : partir d cs with
      | nil => exact absurd hq (partir_ne_nil d cs)
      | cons q qs =>
        rw [hq] at hp ih
        simp only [List.mem_cons] at hp
        rcases hp with rfl | hp
        · rcases List.mem_cons.mp hc with rfl | hc
          · exact ⟨List.mem_cons_self _ _, ha⟩
          · have := ih q (List.mem_cons_self _ _) c hc
            exact ⟨List.mem_cons_of_mem _ this.1, this.2⟩
        · have := ih p (List.mem_cons_of_mem _ hp) c hc
          exact ⟨List.mem_cons_of_mem _ this.1, this.2⟩

theorem registroDeLinea_campos (l : Texto) (e : Estudiante) (h : registroDeLinea l = some e) :
    ∃ idStr anioStr resto,
      partir ';' l = idStr :: e.nombre :: e.correo :: e.carrera :: anioStr :: resto ∧
      stoi idStr = some e.id ∧ stoi anioStr = some e.anio := by
  unfold registroDeLinea at h
  split at h
  · simp at h
  · split at h
    · rename_i idStr nombre correo carrera anioStr resto hp
      cases hi : stoi idStr with
      | none => rw [hi] at h; simp at h
      | some id =>
        cases ha : stoi anioStr with
        | none => rw [hi, ha] at h; simp at h
        | some anio =>
          rw [hi, ha] at h
          simp only [Option.some.injEq] at h
          rw [← h]
          exact ⟨idStr, anioStr, resto, hp, hi, ha⟩
    · simp at h

theorem registroDeLinea_sin_salto (l : Texto) (e : Estudiante)
    (h : registroDeLinea l = some e) (hl : ∀ c ∈ l, c ≠ '\n') : RegistroSinSalto e := by
  obtain ⟨idStr, anioStr, resto, hp, _, _⟩ := registroDeLinea_campos l e h
  have hmem : ∀ p ∈ partir ';' l, ∀ c ∈ p, c ≠ '\n' := fun p hpm c hc =>
    hl c (partir_chars ';' l p hpm c hc).1
  rw [hp] at hmem
  intro c hc
  simp only [List.mem_append] at hc
  rcases hc with (hc | hc) | hc
  · exact hmem e.nombre (by simp) c hc
  · exact hmem e.correo (by simp) c hc
  · exact hmem e.carrera (by simp) c hc

/-- Whatever the files hold, no text of a loaded record contains a line
feed. -/
theorem cargar_sin_salto (s : Estado) (fs : Archivos) :
    ∀ e ∈ (CargarArchivo s fs).1.lista, RegistroSinSalto e := by
  cases fs with
  | mk r u =>
    cases r with
    | none => intro e he; simp [CargarArchivo] at he
    | some contenido =>
      rw [lista_cargada]
      intro e he
      obtain ⟨l, hl, hle⟩ := List.mem_filterMap.mp he
      exact registroDeLinea_sin_salto l e hle
        (fun c hc => (partir_chars '\n' contenido l hl c hc).2)

theorem stoi_to_string_inv (i v : Int) (h : stoi (to_string i) = some v) : v = i := by
  unfold stoi at h
  rw [strtol_to_string] at h
  simp only at h
  split at h
  · simpa using h.symm
  · simp at h

/-- The line written for a record is read back, if at all, as a record with
the same id. -/
theorem registroDeLinea_lineaDe_id (e r : Estudiante)
    (h : registroDeLinea (lineaDe e) = some r) : r.id = e.id := by
  obtain ⟨idStr, anioStr, resto, hp, hid, _⟩ := registroDeLinea_campos _ r h
  have hi : ∀ c ∈ to_string e.id, c ≠ ';' := fun c hc => (to_string_sin_separador _ c hc).1
  have hq : partir ';' (lineaDe e) = to_string e.id :: partir ';'
      (e.nombre ++ ';' :: (e.correo ++ ';' :: (e.carrera ++ ';' :: to_string e.anio))) := by
    unfold lineaDe
    exact partir_campo _ _ hi
  rw [hq] at hp
  have : to_string e.id = idStr := by
    simp only [List.cons.injEq] at hp
    exact hp.1
  rw [← this] at hid
  exact stoi_to_string_inv _ _ hid

/-- Loading what a save wrote for records without line feeds gives records
whose ids are, in order, ids of the saved records. -/
theorem ids_cargados_sublist (l : List Estudiante) (hs : ∀ e ∈ l, RegistroSinSalto e) :
    (((partir '\n' (escribirLista l)).filterMap registroDeLinea).map (fun e => e.id)).Sublist
      (l.map (fun e => e.id)) := by
  induction l with
  | nil => simp [escribirLista, partir, registroDeLinea]
  | cons e resto ih =>
    have ih' := ih (fun x hx => hs x (List.mem_cons_of_mem _ hx))
    have hp : partir '\n' (escribirLista (e :: resto)) =
        lineaDe e :: partir '\n' (escribirLista resto) := by
      simp only [escribirLista, escribirRegistro_eq, List.append_assoc, List.singleton_append]
      exact partir_delim _ _ _ _ (hastaDelim_append '\n' _ _
        (lineaDe_sin_salto e (hs e (List.mem_cons_self _ _))))
    rw [hp, List.filterMap_cons]
    cases hr : registroDeLinea (lineaDe e) with
    | none =>
      simp only [List.map_cons]
      exact List.Sublist.cons _ ih'
    | some r =>
      simp only [List.map_cons, registroDeLinea_lineaDe_id e r hr]
      exact List.Sublist.cons₂ _ ih'

theorem modificarNodo_todos (P : Estudiante → Prop) (id : Int) (nombre correo carrera : Texto)
    (anio : Int) (l : List Estudiante) (h : ∀ e ∈ l, P e)
    (hn : ∀ e ∈ l,
      P { e with nombre := nombre, correo := correo, carrera := carrera, anio := anio }) :
    ∀ e ∈ (modificarNodo id nombre correo carrera anio l).1, P e := by
  induction l with
  | nil => intro e he; simp [modificarNodo] at he
  | cons a resto ih =>
    have hr := ih (fun x hx => h x (List.mem_cons_of_mem _ hx))
      (fun x hx => hn x (List.mem_cons_of_mem _ hx))
    intro e he
    by_cases hid : a.id = id
    · simp only [modificarNodo, hid, if_true, List.mem_cons] at he
      rcases he with he | he
      · have := hn a (List.mem_cons_self _ _)
        simp only [hid] at this
        rw [he]
        exact this
      · exact h e (List.mem_cons_of_mem _ he)
    · simp only [modificarNodo, hid, if_false, List.mem_cons] at he
      rcases he with he | he
      · rw [he]
        exact h a (List.mem_cons_self _ _)
      · exact hr e he

theorem GetWindowText_sin_salto (t : Texto) (n : Nat) (h : sinSalto t = true) :
    ∀ c ∈ GetWindowText t n, c ≠ '\n' := by
  intro c hc
  have hm : c ∈ t := List.mem_of_mem_take hc
  simp only [sinSalto, List.all_eq_true] at h
  simpa using h c hm

theorem textos_sin_salto (id anio : Int) (n c k : Texto) (a b d : Nat)
    (hn : sinSalto n = true) (hc : sinSalto c = true) (hk : sinSalto k = true) :
    RegistroSinSalto { id := id, nombre := GetWindowText n a, correo := GetWindowText c b,
                       carrera := GetWindowText k d, anio := anio } := by
  intro x hx
  simp only [List.mem_append] at hx
  rcases hx with (hx | hx) | hx
  · exact GetWindowText_sin_salto n a hn x hx
  · exact GetWindowText_sin_salto c b hc x hx
  · exact GetWindowText_sin_salto k d hk x hx

theorem Sano_mono (k k' : Int) (s : Estado) (h : Sano k s) (hk : k ≤ k') : Sano k' s :=
  ⟨h.1, ⟨h.2.1.1, le_trans h.2.1.2 hk⟩, h.2.2⟩

theorem Consistente_paso (k : Int) (sys : Sistema) (op : Operacion)
    (h : Consistente k sys) (hk : k < INT_MAX) (hop : operacionLimpia op = true) :
    Consistente (k + 1) (WindowProcedure sys op) := by
  obtain ⟨⟨hv, ⟨h0, h1⟩, hss⟩, hf⟩ := h
  have hmax : sys.estado.ultimoId < INT_MAX := by omega
  have hf' : sys.archivos = sinArchivos ∨
      ∃ S : Estado, Sano (k + 1) S ∧
        sys.archivos = { registros_csv := some (escribirLista S.lista),
                         ultimo_id_txt := some (to_string S.ultimoId) } := by
    rcases hf with hf | ⟨S, hS, hf⟩
    · exact Or.inl hf
    · exact Or.inr ⟨S, Sano_mono k (k + 1) S hS (by omega), hf⟩
  cases op with
  | agregar n c k' a =>
    simp only [operacionLimpia, Bool.and_eq_true] at hop
    obtain ⟨⟨hn, hc⟩, hk'⟩ := hop
    have hav := agregar_valido sys.estado n c k' a hv h0 hmax
    refine ⟨⟨hav.1, ⟨by simp only [WindowProcedure]; omega,
      by simp only [WindowProcedure]; omega⟩, ?_⟩, hf'⟩
    simp only [WindowProcedure]
    rcases agregar_casos sys.estado n c k' a with hc' | hc' | hc'
    · rw [hc']; exact hss
    · rw [hc']; exact hss
    · rw [hc']
      intro e he
      rcases List.mem_append.mp he with he | he
      · exact hss e he
      · simp only [List.mem_singleton] at he
        rw [he]
        exact textos_sin_salto _ _ n c k' 100 100 100 hn hc hk'
  | modificar i n c k' a =>
    simp only [operacionLimpia, Bool.and_eq_true] at hop
    obtain ⟨⟨hn, hc⟩, hk'⟩ := hop
    have hu := (modificar_ids sys.estado i n c k' a).2
    refine ⟨⟨modificar_valido sys.estado i n c k' a hv,
      ⟨by simp only [WindowProcedure]; omega, by simp only [WindowProcedure]; omega⟩, ?_⟩, hf'⟩
    simp only [WindowProcedure, ModificarEstudiante]
    have hm := modificarNodo_todos RegistroSinSalto (atoi (GetWindowText i 10))
      (GetWindowText n 100) (GetWindowText c 100) (GetWindowText k' 100)
      (atoi (GetWindowText a 10)) sys.estado.lista hss
      (fun e _ => textos_sin_salto _ _ n c k' 100 100 100 hn hc hk')
    split
    · exact hss
    · split
      · exact hss
      · split
        · exact hss
        · split <;> exact hm
  | eliminar b =>
    have hu := (eliminar_sublist sys.estado b).2
    refine ⟨⟨eliminar_valido sys.estado b hv,
      ⟨by simp only [WindowProcedure]; omega, by simp only [WindowProcedure]; omega⟩, ?_⟩, hf'⟩
    intro e he
    exact hss e ((eliminar_sublist sys.estado b).1.subset he)
  | guardar x y =>
    have hs : Sano (k + 1) sys.estado := ⟨hv, ⟨h0, by omega⟩, hss⟩
    refine ⟨hs, ?_⟩
    cases x with
    | false => simpa [WindowProcedure, GuardarArchivo] using hf'
    | true =>
      cases y with
      | false => simp [operacionLimpia] at hop
      | true => exact Or.inr ⟨sys.estado, hs, by simp [WindowProcedure, GuardarArchivo]⟩
  | cargar =>
    refine ⟨?_, hf'⟩
    simp only [WindowProcedure]
    rcases hf with hf | ⟨S, ⟨hSv, ⟨hS0, hS1⟩, hSs⟩, hf⟩
    · rw [hf]
      refine ⟨?_, ⟨?_, ?_⟩, cargar_sin_salto _ _⟩
      · simp [IdsValidos, CargarArchivo, sinArchivos]
      · simpa [CargarArchivo, sinArchivos, cargarUltimoId] using h0
      · simp only [CargarArchivo, sinArchivos, cargarUltimoId]
        omega
    · rw [hf]
      have hu : (CargarArchivo sys.estado
          { registros_csv := some (escribirLista S.lista),
            ultimo_id_txt := some (to_string S.ultimoId) }).1.ultimoId = S.ultimoId := by
        rw [ultimoId_cargado, cargarUltimoId_to_string _ _ (by unfold INT_MIN; omega) (by omega)]
      refine ⟨?_, ⟨by rw [hu]; exact hS0, by rw [hu]; omega⟩, cargar_sin_salto _ _⟩
      rw [IdsValidos_iff] at hSv ⊢
      rw [hu, lista_cargada]
      have hsub := ids_cargados_sublist S.lista hSs
      exact ⟨hSv.1.sublist hsub, fun i hi => hSv.2 i (hsub.subset hi)⟩

theorem Consistente_ejecutar (ops : List Operacion) :
    ∀ (k : Int) (sys : Sistema), Consistente k sys → k + ops.length ≤ INT_MAX →
      (∀ o ∈ ops, operacionLimpia o = true) →
      Consistente (k + ops.length) (ejecutar sys ops) := by
  induction ops with
  | nil => intro k sys h _ _; simpa [ejecutar] using h
  | cons op resto ih =>
    intro k sys h hlen hop
    simp only [List.length_cons, Nat.cast_add, Nat.cast_one] at hlen ⊢
    have := ih (k + 1) (WindowProcedure sys op)
      (Consistente_paso k sys op h (by omega) (hop op (List.mem_cons_self _ _))) (by omega)
      (fun o ho => hop o (List.mem_cons_of_mem _ ho))
    simp only [ejecutar, List.foldl_cons]
    have e : k + (↑resto.length + 1) = k + 1 + ↑resto.length := by ring
    rw [e]
    exact this

/-- A save that writes the record file but not the checkpoint file, followed
by a load and an add, gives two records the id 2. -/
theorem ids_repetidos_guardado_parcial :
    (ejecutar sistemaInicial
      [opAgregar, Operacion.guardar true true, opAgregar, Operacion.guardar true false,
        Operacion.cargar, opAgregar]).estado.lista.map (fun e => e.id) = [1, 2, 2] := by
  decide

/-- A name that holds a line feed is written on two lines, and both are
loaded as records with the id 1. -/
theorem ids_repetidos_salto_de_linea :
    (ejecutar sistemaInicial
      [opAgregarConSalto, Operacion.guardar true true,
        Operacion.cargar]).estado.lista.map (fun e => e.id) = [1, 1] := by
  decide

/-- C3 (amended). In every state reached from the empty store
(`ultimoId = 0`, no files) by a sequence of at most 2147483647 add, update,
delete, save and load operations in which the files are written by save
only, every save that writes the record file writes the checkpoint file too,
and no name, email or program text entered holds a line feed, no two records
have the same id. -/
theorem ids_distintos_archivos_guardados (ops : List Operacion)
    (hop : ∀ o ∈ ops, operacionLimpia o = true) (hlen : ops.length ≤ 2147483647) :
    ((ejecutar sistemaInicial ops).estado.lista.map (fun e => e.id)).Nodup := by
  have hini : Consistente 0 sistemaInicial := by
    refine ⟨⟨by decide, ⟨by decide, by decide⟩, ?_⟩, Or.inl rfl⟩
    intro e he
    simp [sistemaInicial, estadoInicial] at he
  have h := Consistente_ejecutar ops 0 sistemaInicial hini (by unfold INT_MAX; omega) hop
  exact h.1.1.1

/-- Concrete instance of `ids_distintos_archivos_guardados`: add, add, delete
1, save, add, load (which drops the unsaved record), add, save, load. -/
theorem ids_distintos_archivos_guardados_witness :
    (∀ o ∈ [opAgregar, opAgregar, Operacion.eliminar "1".toList, Operacion.guardar true true,
        opAgregar, Operacion.cargar, opAgregar, Operacion.guardar true true,
        Operacion.cargar], operacionLimpia o = true) ∧
    [opAgregar, opAgregar, Operacion.eliminar "1".toList, Operacion.guardar true true,
        opAgregar, Operacion.cargar, opAgregar, Operacion.guardar true true,
        Operacion.cargar].length ≤ 2147483647 ∧
    (ejecutar sistemaInicial
      [opAgregar, opAgregar, Operacion.eliminar "1".toList, Operacion.guardar true true,
        opAgregar, Operacion.cargar, opAgregar, Operacion.guardar true true,
        Operacion.cargar]).estado.lista.map (fun e => e.id) = [2, 3] ∧
    ((ejecutar sistemaInicial
      [opAgregar, opAgregar, Operacion.eliminar "1".toList, Operacion.guardar true true,
        opAgregar, Operacion.cargar, opAgregar, Operacion.guardar true true,
        Operacion.cargar]).estado.lista.map (fun e => e.id)).Nodup :=
  ⟨by decide, by decide, by decide,
    ids_distintos_archivos_guardados
      [opAgregar, opAgregar, Operacion.eliminar "1".toList, Operacion.guardar true true,
        opAgregar, Operacion.cargar, opAgregar, Operacion.guardar true true,
        Operacion.cargar] (by decide) (by decide)⟩

end Registro
